import Mathlib

/-
Shallow embedding of the converter discovery / probing / batch harness
implemented in src/script.py, together with theorems settling the frozen
claims about it.  Python dictionaries are modelled as association lists
with insertion-order update semantics, pandas tables as lists of
association-list rows, and a converter class as its constructor behaviour
(a function from keyword-argument sets to a construction outcome) plus,
once constructed, its capability sets and the behaviour of its
asynchronous conversion entry point.
-/

namespace Script

/-- Values that appear in the fixed candidate keyword-argument sets of
`_try_instantiate` (booleans, integers, strings and Python None). -/
inductive PyVal where
  | none
  | bool (b : Bool)
  | int (n : Int)
  | str (s : String)
deriving DecidableEq, Repr

/-- A keyword-argument set (a Python kwargs dictionary), as a list of
name/value pairs. -/
def Kwargs := List (String × PyVal)

instance : DecidableEq Kwargs := by
  unfold Kwargs
  infer_instance

/-- The fixed, ordered candidate list of `_try_instantiate`
(src/script.py lines 168-192), in declared order. -/
def patterns : List Kwargs :=
  [ [],
    [("append_description", PyVal.bool false)],
    [("caesar_offset", PyVal.int 13)],
    [("caesar_offset", PyVal.int 13), ("append_description", PyVal.bool false)],
    [("font", PyVal.str "block")],
    [("font", PyVal.str "rand")],
    [("encoding_func", PyVal.str "b64encode")],
    [("encoding_name", PyVal.str "cipher")],
    [("bits_per_char", PyVal.int 8)],
    [("shift_value", PyVal.int 0)],
    [("template", PyVal.none)],
    [("output_format", PyVal.str "wav")],
    [("synthesis_language", PyVal.str "en-US")],
    [("recognition_language", PyVal.str "en-US")],
    [("img_to_add", PyVal.str "")],
    [("video_path", PyVal.str "")],
    [("text_to_add", PyVal.str "test")],
    [("word_selection_strategy", PyVal.none)],
    [("word_split_separator", PyVal.str " ")],
    [("converter_target", PyVal.none)],
    [("prompt_target", PyVal.none)] ]

/-- Outcome of one attempted construction `converter_class(**params)`:
either an instance, or an exception classified by its Python type
(TypeError, ValueError, or any other exception) carrying its message. -/
inductive CtorResult (α : Type) where
  | ok (inst : α)
  | typeError (msg : String)
  | valueError (msg : String)
  | otherError (msg : String)
deriving DecidableEq, Repr

/-- Whether the first character list starts with the second. -/
def charsStartWith : List Char → List Char → Bool
  | _, [] => true
  | [], _ :: _ => false
  | c :: cs, p :: ps => (c == p) && charsStartWith cs ps

/-- Whether the second character list occurs contiguously inside the
first. -/
def charsContain : List Char → List Char → Bool
  | [], pat => pat.isEmpty
  | c :: tl, pat => charsStartWith (c :: tl) pat || charsContain tl pat

/-- Substring containment, modelling the Python expression `pat in s`
on strings. -/
def containsSubstr (s pat : String) : Bool :=
  charsContain s.data pat.data

/-- ASCII lowercasing, modelling the Python method `str.lower` on the
messages at hand. -/
def strToLower (s : String) : String :=
  String.mk (s.data.map Char.toLower)

/-- ASCII uppercasing, modelling the Python method `str.upper`. -/
def strToUpper (s : String) : String :=
  String.mk (s.data.map Char.toUpper)

/-- Whitespace stripping at both ends, modelling the Python method
`str.strip` with no argument. -/
def strTrim (s : String) : String :=
  String.mk
    (((s.data.dropWhile Char.isWhitespace).reverse.dropWhile
      Char.isWhitespace).reverse)

/-- Whether a string ends with the given suffix, modelling the Python
method `str.endswith`. -/
def strEndsWith (s pat : String) : Bool :=
  charsStartWith s.data.reverse pat.data.reverse

/-- Whether a string starts with the given pattern, modelling the
Python method `str.startswith`. -/
def strStartsWith (s pat : String) : Bool :=
  charsStartWith s.data pat.data

/-- The loop body classification of `_try_instantiate`
(src/script.py lines 195-221), applied from a given suffix of the
candidate list: a successful construction returns the instance at once;
a TypeError advances to the next candidate; a ValueError advances only
when its lowercased message contains "required", "empty" or "valid";
any other exception stops the loop (returning None) unless its
lowercased message contains "required" or "missing", in which case the
loop also advances. -/
def try_instantiate_from {α : Type} (ctor : Kwargs → CtorResult α) :
    List Kwargs → Option α
  | [] => Option.none
  | p :: rest =>
    match ctor p with
    | CtorResult.ok inst => some inst
    | CtorResult.typeError _ => try_instantiate_from ctor rest
    | CtorResult.valueError msg =>
      let e := (strToLower msg)
      if containsSubstr e "required" || containsSubstr e "empty" ||
          containsSubstr e "valid" then
        try_instantiate_from ctor rest
      else
        Option.none
    | CtorResult.otherError msg =>
      let e := (strToLower msg)
      if !containsSubstr e "required" && !containsSubstr e "missing" then
        Option.none
      else
        try_instantiate_from ctor rest

/-- The method `_try_instantiate` of src/script.py: run the candidate
loop over the full declared pattern list. -/
def try_instantiate {α : Type} (ctor : Kwargs → CtorResult α) : Option α :=
  try_instantiate_from ctor patterns

/-- Instrumented variant of the candidate loop that also records, in
order, every candidate argument set on which a construction was
attempted. -/
def probe_trace_from {α : Type} (ctor : Kwargs → CtorResult α) :
    List Kwargs → List Kwargs × Option α
  | [] => ([], Option.none)
  | p :: rest =>
    match ctor p with
    | CtorResult.ok inst => ([p], some inst)
    | CtorResult.typeError _ =>
      let r := probe_trace_from ctor rest
      (p :: r.1, r.2)
    | CtorResult.valueError msg =>
      let e := (strToLower msg)
      if containsSubstr e "required" || containsSubstr e "empty" ||
          containsSubstr e "valid" then
        let r := probe_trace_from ctor rest
        (p :: r.1, r.2)
      else
        ([p], Option.none)
    | CtorResult.otherError msg =>
      let e := (strToLower msg)
      if !containsSubstr e "required" && !containsSubstr e "missing" then
        ([p], Option.none)
      else
        let r := probe_trace_from ctor rest
        (p :: r.1, r.2)

/-- Instrumented probe over the full declared candidate list. -/
def probe_trace {α : Type} (ctor : Kwargs → CtorResult α) :
    List Kwargs × Option α :=
  probe_trace_from ctor patterns

/-- A construction failure after which the loop of `_try_instantiate`
advances to the next candidate (as the code classifies it): every
TypeError; a ValueError whose lowercased message contains "required",
"empty" or "valid"; any other exception whose lowercased message
contains "required" or "missing". -/
def recoverable {α : Type} : CtorResult α → Bool
  | CtorResult.ok _ => false
  | CtorResult.typeError _ => true
  | CtorResult.valueError msg =>
    let e := (strToLower msg)
    containsSubstr e "required" || containsSubstr e "empty" ||
      containsSubstr e "valid"
  | CtorResult.otherError msg =>
    let e := (strToLower msg)
    containsSubstr e "required" || containsSubstr e "missing"

/-- Outcome of awaiting `convert_async(prompt=..., input_type="text")`
on a constructed converter instance: it returns an output text, raises
an exception (whose formatted type and message we carry as a string), or
never completes (the case that `asyncio.wait_for` turns into a
TimeoutError in the discovery harness and that would block forever in
the batch processor). -/
inductive ConvOutcome where
  | ok (outputText : String)
  | raises (msg : String)
  | hangs
deriving DecidableEq, Repr

/-- A constructed converter instance: its `SUPPORTED_INPUT_TYPES` and
`SUPPORTED_OUTPUT_TYPES` attributes (an absent attribute is modelled by
the empty list, matching the `getattr` default of an empty tuple), and
the behaviour of its conversion entry point as a function of the prompt
text. -/
structure Converter where
  supportedInputTypes : List String
  supportedOutputTypes : List String
  convert : String → ConvOutcome

/-- The record stored in `working_converters` for a working class
(src/script.py lines 119-124 and 137-142). -/
structure WorkingEntry where
  inst : Converter
  inputs : List String
  outputs : List String
  isTextToText : Bool

/-- The mutable state of `ConverterDiscovery`: the three dictionaries
`working_converters`, `failed_converters` and `text_to_text_converters`
(src/script.py lines 38-42), as insertion-ordered association lists. -/
structure Ledger where
  working : List (String × WorkingEntry)
  failed : List (String × String)
  textToText : List (String × Converter)

/-- Python dictionary assignment `d[k] = v`: replace the value in place
when the key is present, otherwise append the new pair at the end. -/
def dictSet {α : Type} : List (String × α) → String → α → List (String × α)
  | [], k, v => [(k, v)]
  | (k', v') :: rest, k, v =>
    if k' = k then (k, v) :: rest else (k', v') :: dictSet rest k v

/-- Key list of a modelled Python dictionary. -/
def dictKeys {α : Type} (d : List (String × α)) : List String :=
  d.map Prod.fst

/-- The empty ledger, the state of a fresh `ConverterDiscovery`. -/
def emptyLedger : Ledger := ⟨[], [], []⟩

/-- The method `_test_converter_class` of src/script.py (lines 99-162):
probe instantiation; on exhaustion record the class failed; otherwise
read the capability attributes, special-case `HumanInTheLoopConverter`
(recorded working without invoking its conversion entry point), and for
every other class await the conversion of the probe prompt "test" under
the 5 second deadline, recording the class working on completion, failed
with the timeout reason on deadline expiry, and failed with the
formatted error on an exception. -/
def test_converter_class (L : Ledger) (className : String)
    (ctor : Kwargs → CtorResult Converter) : Ledger :=
  match try_instantiate ctor with
  | Option.none =>
    { L with failed := (dictSet L.failed className
        "Could not instantiate with any known parameters") }
  | some conv =>
    let supportedInputs := conv.supportedInputTypes
    let supportedOutputs := conv.supportedOutputTypes
    let isTextToText :=
      supportedInputs.contains "text" && supportedOutputs.contains "text"
    if className = "HumanInTheLoopConverter" then
      let L1 := { L with working := (dictSet L.working className
          ⟨conv, supportedInputs, supportedOutputs, isTextToText⟩) }
      if isTextToText then
        { L1 with textToText := dictSet L1.textToText className conv }
      else L1
    else
      match conv.convert "test" with
      | ConvOutcome.ok _ =>
        let L1 := { L with working := (dictSet L.working className
            ⟨conv, supportedInputs, supportedOutputs, isTextToText⟩) }
        if isTextToText then
          { L1 with textToText := dictSet L1.textToText className conv }
        else L1
      | ConvOutcome.hangs =>
        { L with failed := (dictSet L.failed className
            "Conversion test timeout (likely interactive converter)") }
      | ConvOutcome.raises msg =>
        { L with failed := (dictSet L.failed className
            ("Testing failed: " ++ msg)) }

/-- The fixed deadline, in seconds, that `asyncio.wait_for` imposes on
the conversion test (src/script.py line 134). -/
def conversionTestTimeoutSeconds : Nat := 5

/-- Result of importing one converter module: either the import raised
(with the formatted error message) or it produced its member classes, as
the name/class pairs that `inspect.getmembers` returns. -/
inductive ModuleLoad where
  | importError (msg : String)
  | classes (cs : List (String × (Kwargs → CtorResult Converter)))

/-- The member filter of src/script.py lines 80-83: keep classes whose
name ends in "Converter" and does not start with an underscore. -/
def converterClassFilter (name : String) : Bool :=
  strEndsWith name "Converter" && !strStartsWith name "_"

/-- The method `_test_converter_module` of src/script.py (lines 75-97):
an import failure is recorded as one failed entry keyed by the module
name; otherwise every member class passing the name filter is probed in
turn. -/
def test_converter_module (L : Ledger) (moduleName : String)
    (m : ModuleLoad) : Ledger :=
  match m with
  | ModuleLoad.importError msg =>
    { L with failed := dictSet L.failed moduleName ("Import failed: " ++ msg) }
  | ModuleLoad.classes cs =>
    (cs.filter (fun c => converterClassFilter c.1)).foldl
      (fun L' c => test_converter_class L' c.1 c.2) L

/-- The discovery loop of `discover_and_test_converters`
(src/script.py lines 55-60): process the discovered converter modules in
order, starting from the empty ledger. -/
def discover_and_test_converters (modules : List (String × ModuleLoad)) : Ledger :=
  modules.foldl (fun L m => test_converter_module L m.1 m.2) emptyLedger

/-- The classification a single probed class receives, independent of
the ledger it is recorded into. -/
inductive Classified where
  | works (e : WorkingEntry)
  | fails (msg : String)

/-- Pure classification of one class, mirroring the decision structure
of `_test_converter_class`. -/
def classify_class (className : String)
    (ctor : Kwargs → CtorResult Converter) : Classified :=
  match try_instantiate ctor with
  | Option.none =>
    Classified.fails "Could not instantiate with any known parameters"
  | some conv =>
    let isTextToText :=
      conv.supportedInputTypes.contains "text" &&
        conv.supportedOutputTypes.contains "text"
    if className = "HumanInTheLoopConverter" then
      Classified.works ⟨conv, conv.supportedInputTypes,
        conv.supportedOutputTypes, isTextToText⟩
    else
      match conv.convert "test" with
      | ConvOutcome.ok _ =>
        Classified.works ⟨conv, conv.supportedInputTypes,
          conv.supportedOutputTypes, isTextToText⟩
      | ConvOutcome.hangs =>
        Classified.fails "Conversion test timeout (likely interactive converter)"
      | ConvOutcome.raises msg => Classified.fails ("Testing failed: " ++ msg)

/-- One ledger-updating event of a discovery run. -/
inductive Event where
  | moduleFailed (name msg : String)
  | classified (name : String) (c : Classified)

/-- Apply one event to the ledger. -/
def applyEvent (L : Ledger) (e : Event) : Ledger :=
  match e with
  | Event.moduleFailed n msg =>
    { L with failed := dictSet L.failed n msg }
  | Event.classified n (Classified.fails msg) =>
    { L with failed := dictSet L.failed n msg }
  | Event.classified n (Classified.works entry) =>
    let L1 := { L with working := dictSet L.working n entry }
    if entry.isTextToText then
      { L1 with textToText := dictSet L1.textToText n entry.inst }
    else L1

/-- The events one module contributes to a discovery run. -/
def eventsOfModule (moduleName : String) (m : ModuleLoad) : List Event :=
  match m with
  | ModuleLoad.importError msg =>
    [Event.moduleFailed moduleName ("Import failed: " ++ msg)]
  | ModuleLoad.classes cs =>
    (cs.filter (fun c => converterClassFilter c.1)).map
      (fun c => Event.classified c.1 (classify_class c.1 c.2))

/-- The events of a whole discovery run, in order. -/
def eventsOf (modules : List (String × ModuleLoad)) : List Event :=
  modules.flatMap (fun m => eventsOfModule m.1 m.2)

/-- One cell of the tabular dataset: either a missing value (pandas
NaN, for which `pd.isna` is true) or a string value. -/
inductive Cell where
  | na
  | str (s : String)
deriving DecidableEq, Repr

/-- A pandas DataFrame with a default positional index: an ordered
column list and one association-list record per row; a key absent from
a record denotes a NaN cell in that column. -/
structure Table where
  cols : List String
  rows : List (List (String × Cell))
deriving DecidableEq, Repr

/-- Lookup of a field in one row record. -/
def lookupCell : List (String × Cell) → String → Option Cell
  | [], _ => Option.none
  | (k, v) :: r, c => if k = c then some v else lookupCell r c

/-- Set a field of one row record, keeping its position when the key is
present and appending the pair at the end otherwise. -/
def setField (r : List (String × Cell)) (c : String) (v : Cell) :
    List (String × Cell) :=
  match r with
  | [] => [(c, v)]
  | (k, w) :: rest =>
    if k = c then (c, v) :: rest else (k, w) :: setField rest c v

/-- Replace the element at one position of a list, leaving every other
position unchanged. -/
def modifyAt {α : Type} (l : List α) (i : Nat) (f : α → α) : List α :=
  match l, i with
  | [], _ => []
  | x :: xs, 0 => f x :: xs
  | x :: xs, Nat.succ j => x :: modifyAt xs j f

/-- Read the cell of a table at a row position and column name
(`df.iloc[idx][col]`); a row out of range or an absent key reads as
NaN. -/
def getCell (t : Table) (i : Nat) (c : String) : Cell :=
  match t.rows[i]? with
  | Option.none => Cell.na
  | some r => (lookupCell r c).getD Cell.na

/-- The assignment `df.loc[idx, col] = v` on a default-index frame:
write the cell at row position `idx`; when the column does not yet
exist it is appended at the end of the column list (and stays NaN in
every other row, which the association-list representation renders as
an absent key). -/
def setCell (t : Table) (i : Nat) (c : String) (v : Cell) : Table :=
  { cols := if t.cols.contains c then t.cols else t.cols ++ [c],
    rows := modifyAt t.rows i (fun r => setField r c v) }

/-- Python `str(...)` applied to a cell, as the batch loop does before
stripping and converting (`str(prompt)`); a NaN renders as "nan". -/
def cellStr : Cell → String
  | Cell.na => "nan"
  | Cell.str s => s

/-- The row-skip test of src/script.py line 265: the row is skipped when
the prompt cell is NaN or its string form is blank after stripping. -/
def skipRow (df : Table) (promptColumn : String) (i : Nat) : Bool :=
  match getCell df i promptColumn with
  | Cell.na => true
  | Cell.str s => (strTrim s = "")

/-- Whether a conversion outcome is a completed conversion. -/
def ConvOutcome.isOk : ConvOutcome → Bool
  | ConvOutcome.ok _ => true
  | ConvOutcome.raises _ => false
  | ConvOutcome.hangs => false

/-- Result of one converter invocation on one row, as the value written
into the output column (src/script.py lines 270-285): the output text on
success, the error marker on an exception, and no value (divergence of
the whole run) when the conversion never completes. -/
def convertCell (conv : Converter) (prompt : String) : Option Cell :=
  match conv.convert prompt with
  | ConvOutcome.ok out => some (Cell.str out)
  | ConvOutcome.raises msg => some (Cell.str ("ERROR: " ++ msg))
  | ConvOutcome.hangs => Option.none

/-- The inner converter loop of `process_excel` for one retained row:
each text-to-text converter writes into its own `<name>_output` column
of the results table, the error marker taking the place of the output
when the conversion raises. -/
def processRowConverters (t2t : List (String × Converter)) (idx : Nat)
    (prompt : String) (results : Table) : Option Table :=
  t2t.foldl
    (fun acc nc =>
      match acc with
      | Option.none => Option.none
      | some res =>
        match convertCell nc.2 prompt with
        | Option.none => Option.none
        | some v => some (setCell res idx (nc.1 ++ "_output") v))
    (some results)

/-- One iteration of the row loop of `process_excel` (src/script.py
lines 262-285): read the prompt from the original frame, skip NaN or
blank rows, and otherwise run every converter on the stringified
prompt. -/
def processRow (df : Table) (promptColumn : String)
    (t2t : List (String × Converter)) (acc : Option Table) (idx : Nat) :
    Option Table :=
  match acc with
  | Option.none => Option.none
  | some results =>
    if skipRow df promptColumn idx then some results
    else processRowConverters t2t idx
      (cellStr (getCell df idx promptColumn)) results

/-- Python `df.head(m)`: the first `m` rows when `m` is non-negative,
and all but the last `-m` rows when `m` is negative. -/
def pandasHead {α : Type} (m : Int) (rows : List α) : List α :=
  if 0 ≤ m then rows.take m.toNat else rows.take (rows.length - (-m).toNat)

/-- The core of `process_excel` (src/script.py lines 251-285), between
reading the input frame and saving the enriched one: fail when the
prompt column is missing (the function logs and returns without
output), truncate with `df.head(max_rows)` only when `max_rows` is
truthy (neither None nor 0), copy the frame and run the row loop over
every row position.  The value `none` models the runs that produce no
enriched table: the missing-column early return, and divergence on a
conversion that never completes. -/
def process_excel (df : Table) (promptColumn : String)
    (t2t : List (String × Converter)) (maxRows : Option Int) : Option Table :=
  if df.cols.contains promptColumn = false then Option.none
  else
    let df1 := match maxRows with
      | some m => if m ≠ 0 then { df with rows := pandasHead m df.rows } else df
      | Option.none => df
    (List.range df1.rows.length).foldl (processRow df1 promptColumn t2t) (some df1)

/-- The output column names a batch run adds, one per text-to-text
converter, in ledger order (src/script.py line 277). -/
def outputCols (t2t : List (String × Converter)) : List String :=
  t2t.map (fun nc => nc.1 ++ "_output")

/-- Well-formedness of a frame as produced by reading a tabular file:
every row record has exactly the frame columns as its keys, in column
order. -/
def Table.Wf (t : Table) : Prop :=
  ∀ r ∈ t.rows, r.map Prod.fst = t.cols

/-- Whether any of the first `n` rows is retained (not skipped) by the
batch loop. -/
def anyKept (df : Table) (promptColumn : String) (n : Nat) : Bool :=
  (List.range n).any (fun i => !skipRow df promptColumn i)

/-- The fields the batch loop appends to one retained row: for each
text-to-text converter, its output column holding the conversion result
or the error marker. -/
def enrichRow (df : Table) (promptColumn : String)
    (t2t : List (String × Converter)) (i : Nat) : List (String × Cell) :=
  t2t.map (fun nc => (nc.1 ++ "_output",
    (convertCell nc.2 (cellStr (getCell df i promptColumn))).getD Cell.na))

/-- The converter class names a module contributes to probing, after the
member name filter. -/
def classNamesOf (m : ModuleLoad) : List String :=
  match m with
  | ModuleLoad.importError _ => []
  | ModuleLoad.classes cs =>
    ((cs.filter (fun c => converterClassFilter c.1)).map (fun c => c.1))

/-- All class names probed during a discovery run, in probing order. -/
def probedClassNames (modules : List (String × ModuleLoad)) : List String :=
  modules.flatMap (fun m => classNamesOf m.2)

/-- The names of the modules whose import failed during a discovery
run. -/
def failedModuleNames (modules : List (String × ModuleLoad)) : List String :=
  modules.filterMap (fun m =>
    match m.2 with
    | ModuleLoad.importError _ => some m.1
    | ModuleLoad.classes _ => Option.none)

/-- Class names carried by the classification events of a run. -/
def eventClassNames (events : List Event) : List String :=
  events.filterMap (fun e =>
    match e with
    | Event.classified n _ => some n
    | Event.moduleFailed _ _ => Option.none)

/-- Module names carried by the module-failure events of a run. -/
def eventModNames (events : List Event) : List String :=
  events.filterMap (fun e =>
    match e with
    | Event.moduleFailed n _ => some n
    | Event.classified _ _ => Option.none)

/-- Some event of the list records the given name as working. -/
def worksName (events : List Event) (n : String) : Prop :=
  ∃ e ∈ events, ∃ entry, e = Event.classified n (Classified.works entry)

/-- Some event of the list records the given name as failed (either a
module import failure or a failed class). -/
def failsName (events : List Event) (n : String) : Prop :=
  ∃ e ∈ events, (∃ msg, e = Event.moduleFailed n msg) ∨
    (∃ msg, e = Event.classified n (Classified.fails msg))

/-- A working entry is coherent when its text-to-text flag agrees with
the capability sets of the stored instance; `classify_class` only
produces coherent entries. -/
def WorkingEntry.Coherent (e : WorkingEntry) : Prop :=
  e.isTextToText = (e.inst.supportedInputTypes.contains "text" &&
    e.inst.supportedOutputTypes.contains "text")

/-- Example text-to-text converter with a no-argument construction and
an uppercasing conversion, as in the concrete scenario of the spec. -/
def upperConv : Converter :=
  ⟨["text"], ["text"], fun s => ConvOutcome.ok (strToUpper s)⟩

/-- Example converter whose conversion never completes within any
deadline. -/
def hangConv : Converter :=
  ⟨["text"], ["text"], fun _ => ConvOutcome.hangs⟩

/-- Constructor behaviour used against claim C1: the no-argument
candidate raises a RuntimeError-like exception (neither a TypeError nor
a ValueError) whose message contains "required"; every other candidate
succeeds. -/
def cexC1ctor : Kwargs → CtorResult Converter :=
  fun p => if p = [] then CtorResult.otherError "required" else CtorResult.ok upperConv

/-- Constructor behaviour for the claim C2 witness: the no-argument
candidate raises a TypeError; the second candidate succeeds. -/
def witC2ctor : Kwargs → CtorResult Converter :=
  fun p => if p = [] then CtorResult.typeError "unexpected keyword argument"
    else CtorResult.ok upperConv

/-- Constructor behaviour for the claim C1 witness: the no-argument
candidate raises a ValueError whose message matches none of the
recognized recoverable substrings. -/
def witC1ctor : Kwargs → CtorResult Converter :=
  fun _ => CtorResult.valueError "Boom"

/-- Module list used against claim C3: two modules define classes with
the same name `AConverter`, one instantiable and working, the other
rejecting every candidate argument set. -/
def cexC3modules : List (String × ModuleLoad) :=
  [ ("a_converter", ModuleLoad.classes
      [("AConverter", fun _ => CtorResult.ok upperConv)]),
    ("b_converter", ModuleLoad.classes
      [("AConverter", fun _ => CtorResult.typeError "bad")]) ]

/-- Three-row frame of the concrete scenario of claim C7, with prompts
"hi", "" and "go" in column `prompt`. -/
def df7 : Table :=
  ⟨["prompt"],
    [ [("prompt", Cell.str "hi")],
      [("prompt", Cell.str "")],
      [("prompt", Cell.str "go")] ]⟩

/-- One-row frame used against claim C5: the input already carries a
column named like the output column of converter `C`. -/
def cexC5df : Table :=
  ⟨["prompt", "C_output"],
    [ [("prompt", Cell.str "hi"), ("C_output", Cell.str "orig")] ]⟩

/-- Converter raising on the prompt "bad" and echoing every other
prompt, used by the claim C6 witness. -/
def errConv : Converter :=
  ⟨["text"], ["text"],
    fun s => if s = "bad" then ConvOutcome.raises "boom" else ConvOutcome.ok s⟩

/-- Converter echoing every prompt, used by the claim C6 witness as the
replacement behaviour that does not raise. -/
def echoConv : Converter :=
  ⟨["text"], ["text"], fun s => ConvOutcome.ok s⟩

/-- Two-row frame for the claim C6 witness, whose second prompt is the
one `errConv` raises on. -/
def df6 : Table :=
  ⟨["prompt"],
    [ [("prompt", Cell.str "ok")],
      [("prompt", Cell.str "bad")] ]⟩

/-- Constructor behaviour for the claim C9 witness: the no-argument
candidate yields an instance whose conversion would never complete. -/
def witC9ctor : Kwargs → CtorResult Converter :=
  fun p => if p = [] then CtorResult.ok hangConv
    else CtorResult.typeError "unexpected keyword argument"

/-- The ledger invariant of claim C3: no name is recorded both working
and failed, the text-to-text names form a subset of the working names,
and every text-to-text member has "text" in both of its capability
sets. -/
def LedgerInv (L : Ledger) : Prop :=
  (∀ n, ¬(n ∈ dictKeys L.working ∧ n ∈ dictKeys L.failed)) ∧
  (∀ n ∈ dictKeys L.textToText, n ∈ dictKeys L.working) ∧
  (∀ p ∈ L.textToText,
    p.2.supportedInputTypes.contains "text" = true ∧
      p.2.supportedOutputTypes.contains "text" = true)

/-- Module list for the claim C3 witness: one module with one working
class, and one module failing to import under a distinct name. -/
def witC3modules : List (String × ModuleLoad) :=
  [ ("a_converter", ModuleLoad.classes
      [("AConverter", fun _ => CtorResult.ok upperConv)]),
    ("x_converter", ModuleLoad.importError "No module named pyrit") ]

theorem probe_trace_from_eq_try {α : Type} (ctor : Kwargs → CtorResult α) :
    ∀ ps : List Kwargs,
      (probe_trace_from ctor ps).2 = try_instantiate_from ctor ps := by
  intro ps
  induction ps with
  | nil => rfl
  | cons p rest ih =>
    simp only [probe_trace_from, try_instantiate_from]
    cases ctor p with
    | ok inst => rfl
    | typeError msg => simpa using ih
    | valueError msg =>
      by_cases h : (containsSubstr (strToLower msg) "required" ||
          containsSubstr (strToLower msg) "empty" ||
          containsSubstr (strToLower msg) "valid") = true
      · simp [h, ih]
      · simp [h]
    | otherError msg =>
      by_cases h : (!containsSubstr (strToLower msg) "required" &&
          !containsSubstr (strToLower msg) "missing") = true
      · simp [h]
      · simp [h, ih]

theorem probe_trace_from_cons_rec {α : Type} (ctor : Kwargs → CtorResult α)
    (p : Kwargs) (rest : List Kwargs) (hrec : recoverable (ctor p) = true) :
    probe_trace_from ctor (p :: rest) =
      (p :: (probe_trace_from ctor rest).1, (probe_trace_from ctor rest).2) := by
  simp only [probe_trace_from]
  cases h : ctor p with
  | ok inst => rw [h] at hrec; simp [recoverable] at hrec
  | typeError msg => rfl
  | valueError msg =>
    rw [h] at hrec
    simp only [recoverable] at hrec
    simp [hrec]
  | otherError msg =>
    rw [h] at hrec
    simp only [recoverable, Bool.or_eq_true] at hrec
    rcases hrec with h1 | h1 <;> simp [h1]

theorem probe_trace_from_cons_stop {α : Type} (ctor : Kwargs → CtorResult α)
    (p : Kwargs) (rest : List Kwargs) (hrec : recoverable (ctor p) = false)
    (hnok : ∀ i, ctor p ≠ CtorResult.ok i) :
    probe_trace_from ctor (p :: rest) = ([p], Option.none) := by
  simp only [probe_trace_from]
  cases h : ctor p with
  | ok inst => exact absurd h (hnok inst)
  | typeError msg => rw [h] at hrec; simp [recoverable] at hrec
  | valueError msg =>
    rw [h] at hrec
    simp only [recoverable] at hrec
    simp [hrec]
  | otherError msg =>
    rw [h] at hrec
    simp only [recoverable] at hrec
    rcases Bool.or_eq_false_iff.mp hrec with ⟨h1, h2⟩
    simp [h1, h2]

theorem probe_trace_from_cons_ok {α : Type} (ctor : Kwargs → CtorResult α)
    (p : Kwargs) (rest : List Kwargs) (inst : α)
    (h : ctor p = CtorResult.ok inst) :
    probe_trace_from ctor (p :: rest) = ([p], some inst) := by
  simp only [probe_trace_from, h]

theorem probe_trace_from_append_rec {α : Type} (ctor : Kwargs → CtorResult α)
    (ps rest : List Kwargs) (hrec : ∀ q ∈ ps, recoverable (ctor q) = true) :
    probe_trace_from ctor (ps ++ rest) =
      (ps ++ (probe_trace_from ctor rest).1, (probe_trace_from ctor rest).2) := by
  induction ps with
  | nil => simp
  | cons p ps ih =>
    rw [List.cons_append,
      probe_trace_from_cons_rec ctor p (ps ++ rest) (hrec p (by simp)),
      ih (fun q hq => hrec q (by simp [hq]))]
    simp

theorem probe_trace_from_exhausted {α : Type} (ctor : Kwargs → CtorResult α)
    (ps : List Kwargs) (hrec : ∀ q ∈ ps, recoverable (ctor q) = true) :
    probe_trace_from ctor ps = (ps, Option.none) := by
  have h := probe_trace_from_append_rec ctor ps [] hrec
  simpa [probe_trace_from] using h

/-- C1 (amended): classification of constructor failures by the
instantiation prober.  A shape-mismatch failure (TypeError) always
advances to the next candidate; a value-validation failure (ValueError)
advances exactly when its lowercased message contains "required",
"empty" or "valid"; and any other failure stops probing of the plugin
immediately with no further candidate attempted, unless its lowercased
message contains "required" or "missing", in which case the prober also
advances to the next candidate. -/
theorem claim_C1 {α : Type} (ctor : Kwargs → CtorResult α)
    (ps qs : List Kwargs) (p : Kwargs)
    (hsplit : patterns = ps ++ p :: qs)
    (hrec : ∀ q ∈ ps, recoverable (ctor q) = true) :
    (∀ msg, recoverable (CtorResult.typeError (α := α) msg) = true) ∧
    (∀ msg, recoverable (CtorResult.valueError (α := α) msg) =
      (containsSubstr (strToLower msg) "required" ||
        containsSubstr (strToLower msg) "empty" ||
        containsSubstr (strToLower msg) "valid")) ∧
    (∀ msg, recoverable (CtorResult.otherError (α := α) msg) =
      (containsSubstr (strToLower msg) "required" ||
        containsSubstr (strToLower msg) "missing")) ∧
    (recoverable (ctor p) = true →
      probe_trace ctor =
        (ps ++ p :: (probe_trace_from ctor qs).1,
          (probe_trace_from ctor qs).2)) ∧
    (recoverable (ctor p) = false → (∀ i, ctor p ≠ CtorResult.ok i) →
      probe_trace ctor = (ps ++ [p], Option.none) ∧
      try_instantiate ctor = Option.none) := by
  refine ⟨fun _ => rfl, fun _ => rfl, fun _ => rfl, ?_, ?_⟩
  · intro hp
    unfold probe_trace
    rw [hsplit, probe_trace_from_append_rec ctor ps _ hrec,
      probe_trace_from_cons_rec ctor p qs hp]
  · intro hp hnok
    have htr : probe_trace ctor = (ps ++ [p], Option.none) := by
      unfold probe_trace
      rw [hsplit, probe_trace_from_append_rec ctor ps _ hrec,
        probe_trace_from_cons_stop ctor p qs hp hnok]
    refine ⟨htr, ?_⟩
    have h2 := probe_trace_from_eq_try ctor patterns
    unfold try_instantiate
    rw [← h2]
    show (probe_trace ctor).2 = Option.none
    rw [htr]

/-- C1 counterexample: on the concrete constructor behaviour
`cexC1ctor`, the first (no-argument) candidate fails with an exception
that is neither a TypeError nor a ValueError, yet probing does not stop
there: a second candidate is attempted and probing returns an instance,
because the message of the failure contains "required". -/
theorem claim_C1_counterexample :
    cexC1ctor [] = CtorResult.otherError "required" ∧
    (probe_trace cexC1ctor).1.length = 2 ∧
    try_instantiate cexC1ctor = some upperConv :=
  ⟨rfl, rfl, rfl⟩

/-- C1 witness: instantiating the amended claim on a constructor whose
no-argument candidate raises an unrecognized ValueError shows probing
stopping after exactly that one candidate. -/
theorem claim_C1_witness :
    probe_trace witC1ctor = ([[]], Option.none) ∧
    try_instantiate witC1ctor = Option.none := by
  have h := claim_C1 witC1ctor [] (patterns.drop 1) [] rfl
    (fun q hq => absurd hq (List.not_mem_nil q))
  exact h.2.2.2.2 rfl (fun i hi => by simp [witC1ctor] at hi)

/-- C2: the prober attempts its fixed candidate argument sets in the
declared order with the no-argument candidate first; the first
successful construction is returned immediately, with no later
candidate attempted; and when every candidate fails recoverably the
class is recorded in the failed ledger as not instantiable. -/
theorem claim_C2 (ctor : Kwargs → CtorResult Converter)
    (ps qs : List Kwargs) (p : Kwargs) (inst : Converter)
    (L : Ledger) (n : String)
    (hsplit : patterns = ps ++ p :: qs)
    (hrec : ∀ q ∈ ps, recoverable (ctor q) = true) :
    patterns.head? = some [] ∧
    (ctor p = CtorResult.ok inst →
      probe_trace ctor = (ps ++ [p], some inst) ∧
      try_instantiate ctor = some inst) ∧
    ((∀ q ∈ patterns, recoverable (ctor q) = true) →
      try_instantiate ctor = Option.none ∧
      test_converter_class L n ctor =
        { L with failed := (dictSet L.failed n
            "Could not instantiate with any known parameters") }) := by
  refine ⟨rfl, ?_, ?_⟩
  · intro hp
    have htr : probe_trace ctor = (ps ++ [p], some inst) := by
      unfold probe_trace
      rw [hsplit, probe_trace_from_append_rec ctor ps _ hrec,
        probe_trace_from_cons_ok ctor p qs inst hp]
    refine ⟨htr, ?_⟩
    have h2 := probe_trace_from_eq_try ctor patterns
    unfold try_instantiate
    rw [← h2]
    show (probe_trace ctor).2 = some inst
    rw [htr]
  · intro hall
    have htr := probe_trace_from_exhausted ctor patterns hall
    have hnone : try_instantiate ctor = Option.none := by
      have h2 := probe_trace_from_eq_try ctor patterns
      unfold try_instantiate
      rw [← h2, htr]
    refine ⟨hnone, ?_⟩
    unfold test_converter_class
    rw [hnone]

/-- C2 witness: on a constructor rejecting the no-argument candidate
with a TypeError and accepting the second candidate, the prober
attempts exactly the first two candidates in declared order and returns
the instance of the second. -/
theorem claim_C2_witness :
    probe_trace witC2ctor =
      ([[], [("append_description", PyVal.bool false)]], some upperConv) ∧
    try_instantiate witC2ctor = some upperConv := by
  have h := claim_C2 witC2ctor [[]] (patterns.drop 2)
    [("append_description", PyVal.bool false)] upperConv emptyLedger "X" rfl
    (by intro q hq; simp at hq; subst hq; rfl)
  exact h.2.1 rfl

theorem test_converter_class_eq_applyEvent (L : Ledger) (n : String)
    (ctor : Kwargs → CtorResult Converter) :
    test_converter_class L n ctor =
      applyEvent L (Event.classified n (classify_class n ctor)) := by
  unfold test_converter_class classify_class applyEvent
  cases h : try_instantiate ctor with
  | none => rfl
  | some conv =>
    by_cases hn : n = "HumanInTheLoopConverter"
    · simp [hn]
    · simp only [if_neg hn]
      cases conv.convert "test" <;> rfl

theorem foldl_classes_eq_events
    (cs : List (String × (Kwargs → CtorResult Converter))) (L : Ledger) :
    cs.foldl (fun L' c => test_converter_class L' c.1 c.2) L =
      (cs.map (fun c => Event.classified c.1 (classify_class c.1 c.2))).foldl
        applyEvent L := by
  induction cs generalizing L with
  | nil => rfl
  | cons c rest ih =>
    simp only [List.foldl_cons, List.map_cons]
    rw [test_converter_class_eq_applyEvent, ih]

theorem test_converter_module_eq_events (L : Ledger) (n : String)
    (m : ModuleLoad) :
    test_converter_module L n m = (eventsOfModule n m).foldl applyEvent L := by
  cases m with
  | importError msg => rfl
  | classes cs =>
    simp only [test_converter_module, eventsOfModule, List.foldl_map]
    rw [foldl_classes_eq_events]
    simp [List.foldl_map]

theorem foldl_modules_eq_events (modules : List (String × ModuleLoad))
    (L : Ledger) :
    modules.foldl (fun L' m => test_converter_module L' m.1 m.2) L =
      (eventsOf modules).foldl applyEvent L := by
  unfold eventsOf
  induction modules generalizing L with
  | nil => rfl
  | cons m rest ih =>
    simp only [List.foldl_cons, List.flatMap_cons, List.foldl_append]
    rw [test_converter_module_eq_events, ih]

theorem discover_eq_events (modules : List (String × ModuleLoad)) :
    discover_and_test_converters modules =
      (eventsOf modules).foldl applyEvent emptyLedger :=
  foldl_modules_eq_events modules emptyLedger

/-- C4: a successfully instantiated plugin (other than the interactive
special case) whose conversion does not complete within the 5 second
deadline is recorded in the failed ledger with the timeout-specific
reason flagging suspected interactivity, and the classification of every
subsequent plugin class proceeds from that updated ledger by the same
per-class events it would produce in any run, unaffected by the
timed-out plugin. -/
theorem claim_C4 (L : Ledger) (n : String)
    (ctor : Kwargs → CtorResult Converter) (conv : Converter)
    (cs : List (String × (Kwargs → CtorResult Converter)))
    (hinst : try_instantiate ctor = some conv)
    (hhangs : conv.convert "test" = ConvOutcome.hangs)
    (hn : n ≠ "HumanInTheLoopConverter") :
    test_converter_class L n ctor =
      { L with failed := (dictSet L.failed n
          "Conversion test timeout (likely interactive converter)") } ∧
    ((n, ctor) :: cs).foldl (fun L' c => test_converter_class L' c.1 c.2) L =
      (cs.map (fun c => Event.classified c.1 (classify_class c.1 c.2))).foldl
        applyEvent
        { L with failed := (dictSet L.failed n
            "Conversion test timeout (likely interactive converter)") } := by
  have h1 : test_converter_class L n ctor =
      { L with failed := (dictSet L.failed n
          "Conversion test timeout (likely interactive converter)") } := by
    unfold test_converter_class
    rw [hinst]
    simp only [if_neg hn, hhangs]
  refine ⟨h1, ?_⟩
  rw [List.foldl_cons, h1, foldl_classes_eq_events]

/-- C4 witness: a concrete hanging converter is recorded failed with the
timeout reason and a subsequent class is still classified. -/
theorem claim_C4_witness :
    [("HangConverter", fun _ => CtorResult.ok hangConv),
      ("AConverter", fun _ => CtorResult.ok upperConv)].foldl
        (fun L' (c : String × (Kwargs → CtorResult Converter)) =>
          test_converter_class L' c.1 c.2) emptyLedger =
      ([("AConverter", fun _ => CtorResult.ok upperConv)].map
        (fun c => Event.classified c.1 (classify_class c.1 c.2))).foldl
        applyEvent
        { emptyLedger with failed := (dictSet emptyLedger.failed "HangConverter"
            "Conversion test timeout (likely interactive converter)") } := by
  have h := claim_C4 emptyLedger "HangConverter"
    (fun _ => CtorResult.ok hangConv) hangConv
    [("AConverter", fun _ => CtorResult.ok upperConv)]
    rfl rfl (by decide)
  exact h.2

/-- C8: a module whose import fails contributes exactly one failed-ledger
entry, keyed by the module name and holding the load-time error message,
and the rest of the discovery run proceeds from that updated ledger by
the per-module events of the remaining modules, which do not depend on
the failing module. -/
theorem claim_C8 (xs ys : List (String × ModuleLoad)) (m msg : String) :
    discover_and_test_converters
        (xs ++ (m, ModuleLoad.importError msg) :: ys) =
      (eventsOf ys).foldl applyEvent
        { discover_and_test_converters xs with
          failed := (dictSet (discover_and_test_converters xs).failed m
            ("Import failed: " ++ msg)) } := by
  unfold discover_and_test_converters
  rw [List.foldl_append, List.foldl_cons]
  rw [foldl_modules_eq_events ys]
  rfl

/-- C9: a plugin class named `HumanInTheLoopConverter` that the prober
instantiates is recorded in the working ledger without its conversion
entry point being invoked (the conclusion holds with no assumption at
all on the behaviour of `conv.convert`, including a conversion that
never completes), and it is additionally recorded in the text-to-text
ledger exactly when "text" occurs in both of its capability sets. -/
theorem claim_C9 (L : Ledger) (ctor : Kwargs → CtorResult Converter)
    (conv : Converter) (hinst : try_instantiate ctor = some conv) :
    (test_converter_class L "HumanInTheLoopConverter" ctor).working =
      dictSet L.working "HumanInTheLoopConverter"
        ⟨conv, conv.supportedInputTypes, conv.supportedOutputTypes,
          conv.supportedInputTypes.contains "text" &&
            conv.supportedOutputTypes.contains "text"⟩ ∧
    (test_converter_class L "HumanInTheLoopConverter" ctor).failed =
      L.failed ∧
    ((conv.supportedInputTypes.contains "text" &&
        conv.supportedOutputTypes.contains "text") = true →
      (test_converter_class L "HumanInTheLoopConverter" ctor).textToText =
        dictSet L.textToText "HumanInTheLoopConverter" conv) ∧
    ((conv.supportedInputTypes.contains "text" &&
        conv.supportedOutputTypes.contains "text") = false →
      (test_converter_class L "HumanInTheLoopConverter" ctor).textToText =
        L.textToText) := by
  have he := test_converter_class_eq_applyEvent L "HumanInTheLoopConverter" ctor
  have hc : classify_class "HumanInTheLoopConverter" ctor =
      Classified.works ⟨conv, conv.supportedInputTypes,
        conv.supportedOutputTypes,
        conv.supportedInputTypes.contains "text" &&
          conv.supportedOutputTypes.contains "text"⟩ := by
    unfold classify_class
    rw [hinst]
    rfl
  rw [hc] at he
  rw [he]
  cases hb : (conv.supportedInputTypes.contains "text" &&
      conv.supportedOutputTypes.contains "text") with
  | true => simp [applyEvent]
  | false => simp [applyEvent]

/-- C9 witness: a `HumanInTheLoopConverter` whose conversion would hang
forever is nevertheless recorded working and text-to-text, with an empty
failed ledger. -/
theorem claim_C9_witness :
    (test_converter_class emptyLedger "HumanInTheLoopConverter"
        witC9ctor).failed = [] ∧
    (test_converter_class emptyLedger "HumanInTheLoopConverter"
        witC9ctor).textToText =
      dictSet emptyLedger.textToText "HumanInTheLoopConverter" hangConv := by
  have h := claim_C9 emptyLedger witC9ctor hangConv rfl
  exact ⟨h.2.1, h.2.2.1 (by decide)⟩

theorem mem_dictKeys_dictSet {α : Type} (d : List (String × α))
    (k n : String) (v : α) :
    n ∈ dictKeys (dictSet d k v) ↔ n = k ∨ n ∈ dictKeys d := by
  induction d with
  | nil => simp [dictSet, dictKeys]
  | cons kv rest ih =>
    by_cases h : kv.1 = k
    · cases kv
      simp_all [dictSet, dictKeys]
      try tauto
    · cases kv
      simp_all [dictSet, dictKeys]
      try tauto

theorem mem_of_mem_dictSet {α : Type} (d : List (String × α))
    (k : String) (v : α) :
    ∀ x ∈ dictSet d k v, x = (k, v) ∨ x ∈ d := by
  induction d with
  | nil => simp [dictSet]
  | cons kv rest ih =>
    intro x hx
    by_cases h : kv.1 = k
    · cases kv
      simp_all [dictSet]
      try tauto
    · cases kv
      simp only [dictSet, if_neg h, List.mem_cons] at hx
      rcases hx with hx | hx
      · simp [hx]
      · rcases ih x hx with h1 | h1
        · exact Or.inl h1
        · simp [h1]

theorem classify_works_coherent (n : String)
    (ctor : Kwargs → CtorResult Converter) (entry : WorkingEntry)
    (h : classify_class n ctor = Classified.works entry) :
    entry.Coherent := by
  unfold classify_class at h
  cases htry : try_instantiate ctor with
  | none => rw [htry] at h; exact absurd h (by simp)
  | some conv =>
    rw [htry] at h
    simp only at h
    by_cases hn : n = "HumanInTheLoopConverter"
    · rw [if_pos hn] at h
      cases h
      rfl
    · rw [if_neg hn] at h
      cases hc : conv.convert "test" with
      | ok t => rw [hc] at h; cases h; rfl
      | hangs => rw [hc] at h; exact absurd h (by simp)
      | raises m => rw [hc] at h; exact absurd h (by simp)

theorem two_mem_filterMap_not_nodup {α β : Type} [DecidableEq β]
    (f : α → Option β) (l : List α) (e1 e2 : α) (n : β)
    (h1 : e1 ∈ l) (h2 : e2 ∈ l) (hne : e1 ≠ e2)
    (hf1 : f e1 = some n) (hf2 : f e2 = some n) :
    ¬ (l.filterMap f).Nodup := by
  induction l with
  | nil => cases h1
  | cons a tl ih =>
    intro hnd
    rcases List.mem_cons.mp h1 with rfl | h1'
    · have h2' : e2 ∈ tl := by
        rcases List.mem_cons.mp h2 with rfl | h
        · exact absurd rfl hne
        · exact h
      rw [List.filterMap_cons, hf1] at hnd
      have hmem : n ∈ tl.filterMap f :=
        List.mem_filterMap.mpr ⟨e2, h2', hf2⟩
      exact (List.nodup_cons.mp hnd).1 hmem
    · rcases List.mem_cons.mp h2 with rfl | h2'
      · rw [List.filterMap_cons, hf2] at hnd
        have hmem : n ∈ tl.filterMap f :=
          List.mem_filterMap.mpr ⟨e1, h1', hf1⟩
        exact (List.nodup_cons.mp hnd).1 hmem
      · have := ih h1' h2'
        rw [List.filterMap_cons] at hnd
        cases hfa : f a with
        | none => rw [hfa] at hnd; exact this hnd
        | some b => rw [hfa] at hnd; exact this (List.nodup_cons.mp hnd).2

theorem eventClassNames_append (a b : List Event) :
    eventClassNames (a ++ b) = eventClassNames a ++ eventClassNames b := by
  simp [eventClassNames]

theorem eventModNames_append (a b : List Event) :
    eventModNames (a ++ b) = eventModNames a ++ eventModNames b := by
  simp [eventModNames]

theorem filterMap_classNames_map_classified
    (l : List (String × (Kwargs → CtorResult Converter))) :
    List.filterMap
      (fun e => match e with
        | Event.classified n _ => some n
        | Event.moduleFailed _ _ => Option.none)
      (l.map (fun c => Event.classified c.1 (classify_class c.1 c.2))) =
      l.map (fun c => c.1) := by
  induction l with
  | nil => rfl
  | cons c tl ih => simp only [List.map_cons, List.filterMap_cons, ih]

theorem filterMap_modNames_map_classified
    (l : List (String × (Kwargs → CtorResult Converter))) :
    List.filterMap
      (fun e => match e with
        | Event.moduleFailed n _ => some n
        | Event.classified _ _ => Option.none)
      (l.map (fun c => Event.classified c.1 (classify_class c.1 c.2))) = [] := by
  induction l with
  | nil => rfl
  | cons c tl ih => simp only [List.map_cons, List.filterMap_cons, ih]

theorem eventClassNames_module (n : String) (m : ModuleLoad) :
    eventClassNames (eventsOfModule n m) = classNamesOf m := by
  cases m with
  | importError msg => rfl
  | classes cs =>
    simp only [eventsOfModule, eventClassNames, classNamesOf]
    exact filterMap_classNames_map_classified _

theorem eventModNames_module (n : String) (m : ModuleLoad) :
    eventModNames (eventsOfModule n m) =
      (match m with
        | ModuleLoad.importError _ => [n]
        | ModuleLoad.classes _ => []) := by
  cases m with
  | importError msg => rfl
  | classes cs =>
    simp only [eventsOfModule, eventModNames]
    exact filterMap_modNames_map_classified _

theorem eventClassNames_eventsOf (modules : List (String × ModuleLoad)) :
    eventClassNames (eventsOf modules) = probedClassNames modules := by
  induction modules with
  | nil => rfl
  | cons m rest ih =>
    simp only [eventsOf, probedClassNames, List.flatMap_cons] at ih ⊢
    rw [eventClassNames_append, eventClassNames_module, ih]

theorem eventModNames_eventsOf (modules : List (String × ModuleLoad)) :
    eventModNames (eventsOf modules) = failedModuleNames modules := by
  induction modules with
  | nil => rfl
  | cons m rest ih =>
    simp only [eventsOf, failedModuleNames, List.flatMap_cons,
      List.filterMap_cons] at ih ⊢
    rw [eventModNames_append, eventModNames_module, ih]
    cases m.2 <;> rfl

theorem inv_add_failed (L : Ledger) (n msg : String)
    (hL : LedgerInv L) (hnw : n ∉ dictKeys L.working) :
    LedgerInv { L with failed := dictSet L.failed n msg } := by
  obtain ⟨h1, h2, h3⟩ := hL
  refine ⟨?_, h2, h3⟩
  rintro m ⟨hmw, hmf⟩
  rcases (mem_dictKeys_dictSet L.failed n m msg).mp hmf with rfl | hmf'
  · exact hnw hmw
  · exact h1 m ⟨hmw, hmf'⟩

theorem inv_add_works (L : Ledger) (n : String) (entry : WorkingEntry)
    (hL : LedgerInv L) (hnf : n ∉ dictKeys L.failed)
    (hcoh : entry.Coherent) :
    LedgerInv (applyEvent L (Event.classified n (Classified.works entry))) := by
  obtain ⟨h1, h2, h3⟩ := hL
  simp only [applyEvent]
  by_cases ht : entry.isTextToText = true
  · rw [if_pos ht]
    refine ⟨?_, ?_, ?_⟩
    · rintro m ⟨hmw, hmf⟩
      rcases (mem_dictKeys_dictSet L.working n m entry).mp hmw with rfl | hmw'
      · exact hnf hmf
      · exact h1 m ⟨hmw', hmf⟩
    · intro m hm
      rcases (mem_dictKeys_dictSet L.textToText n m entry.inst).mp hm
        with heq | hm'
      · subst heq
        exact (mem_dictKeys_dictSet L.working _ _ entry).mpr (Or.inl rfl)
      · exact (mem_dictKeys_dictSet L.working n m entry).mpr (Or.inr (h2 m hm'))
    · intro p hp
      rcases mem_of_mem_dictSet L.textToText n entry.inst p hp with rfl | hp'
      · have hcc := hcoh
        rw [WorkingEntry.Coherent, ht] at hcc
        exact And.imp id id (Bool.and_eq_true _ _ |>.mp hcc.symm)
      · exact h3 p hp'
  · rw [if_neg ht]
    refine ⟨?_, ?_, h3⟩
    · rintro m ⟨hmw, hmf⟩
      rcases (mem_dictKeys_dictSet L.working n m entry).mp hmw with rfl | hmw'
      · exact hnf hmf
      · exact h1 m ⟨hmw', hmf⟩
    · intro m hm
      exact (mem_dictKeys_dictSet L.working n m entry).mpr (Or.inr (h2 m hm))

theorem applyEvents_preserve_inv (events : List Event) (L : Ledger)
    (hL : LedgerInv L)
    (hcoh : ∀ e ∈ events, ∀ n entry,
      e = Event.classified n (Classified.works entry) → entry.Coherent)
    (hworks : ∀ n, worksName events n →
      ¬ failsName events n ∧ n ∉ dictKeys L.failed)
    (hfails : ∀ n, failsName events n → n ∉ dictKeys L.working) :
    LedgerInv (events.foldl applyEvent L) := by
  induction events generalizing L with
  | nil => exact hL
  | cons e rest ih =>
    rw [List.foldl_cons]
    have hcoh' : ∀ e' ∈ rest, ∀ n entry,
        e' = Event.classified n (Classified.works entry) → entry.Coherent :=
      fun e' he' => hcoh e' (List.mem_cons_of_mem e he')
    have hwext : ∀ m, worksName rest m → worksName (e :: rest) m := by
      rintro m ⟨e', he', entry, rfl⟩
      exact ⟨_, List.mem_cons_of_mem e he', entry, rfl⟩
    have hfext : ∀ m, failsName rest m → failsName (e :: rest) m := by
      rintro m ⟨e', he', hc⟩
      exact ⟨e', List.mem_cons_of_mem e he', hc⟩
    cases e with
    | moduleFailed n msg =>
      have hfn : failsName (Event.moduleFailed n msg :: rest) n :=
        ⟨_, List.mem_cons_self _ _, Or.inl ⟨msg, rfl⟩⟩
      have hnw : n ∉ dictKeys L.working := hfails n hfn
      apply ih _ (inv_add_failed L n msg hL hnw) hcoh'
      · intro m hm
        obtain ⟨hmn, hmf⟩ := hworks m (hwext m hm)
        refine ⟨fun hf => hmn (hfext m hf), ?_⟩
        intro hmem
        rcases (mem_dictKeys_dictSet L.failed n m msg).mp hmem with rfl | h
        · exact hmn hfn
        · exact hmf h
      · intro m hm
        exact hfails m (hfext m hm)
    | classified n c =>
      cases c with
      | fails msg =>
        have hfn : failsName (Event.classified n (Classified.fails msg) :: rest) n :=
          ⟨_, List.mem_cons_self _ _, Or.inr ⟨msg, rfl⟩⟩
        have hnw : n ∉ dictKeys L.working := hfails n hfn
        have happ : applyEvent L (Event.classified n (Classified.fails msg)) =
            { L with failed := dictSet L.failed n msg } := rfl
        rw [happ]
        apply ih _ (inv_add_failed L n msg hL hnw) hcoh'
        · intro m hm
          obtain ⟨hmn, hmf⟩ := hworks m (hwext m hm)
          refine ⟨fun hf => hmn (hfext m hf), ?_⟩
          intro hmem
          rcases (mem_dictKeys_dictSet L.failed n m msg).mp hmem with rfl | h
          · exact hmn hfn
          · exact hmf h
        · intro m hm
          exact hfails m (hfext m hm)
      | works entry =>
        have hc : entry.Coherent :=
          hcoh _ (List.mem_cons_self _ _) n entry rfl
        have hwn : worksName (Event.classified n (Classified.works entry) :: rest) n :=
          ⟨_, List.mem_cons_self _ _, entry, rfl⟩
        obtain ⟨hnf_full, hnotfailed⟩ := hworks n hwn
        apply ih _ (inv_add_works L n entry hL hnotfailed hc) hcoh'
        · intro m hm
          obtain ⟨hmn, hmf⟩ := hworks m (hwext m hm)
          refine ⟨fun hf => hmn (hfext m hf), ?_⟩
          have : (applyEvent L (Event.classified n (Classified.works entry))).failed
              = L.failed := by
            simp only [applyEvent]
            by_cases ht : entry.isTextToText = true
            · rw [if_pos ht]
            · rw [if_neg ht]
          rw [this]
          exact hmf
        · intro m hm
          intro hmem
          have hwkeys : dictKeys
              (applyEvent L (Event.classified n (Classified.works entry))).working
              = dictKeys (dictSet L.working n entry) := by
            simp only [applyEvent]
            by_cases ht : entry.isTextToText = true
            · rw [if_pos ht]
            · rw [if_neg ht]
          rw [hwkeys] at hmem
          rcases (mem_dictKeys_dictSet L.working n m entry).mp hmem with rfl | h
          · exact hnf_full (hfext m hm)
          · exact hfails m (hfext m hm) h

/-- C3 (amended): after any discovery-and-probe run in which the probed
class names are pairwise distinct and no failed module name coincides
with a probed class name, the ledger satisfies the stated invariant:
every recorded name appears in exactly one of the working and failed
mappings, the text-to-text name set is a subset of the working name
set, and every member of the text-to-text mapping has "text" in both
its supported-input and supported-output capability sets. -/
theorem claim_C3 (modules : List (String × ModuleLoad))
    (hnd : (probedClassNames modules).Nodup)
    (hdisj : ∀ n ∈ failedModuleNames modules, n ∉ probedClassNames modules) :
    LedgerInv (discover_and_test_converters modules) := by
  rw [discover_eq_events]
  apply applyEvents_preserve_inv
  · refine ⟨?_, ?_, ?_⟩
    · rintro n ⟨h, _⟩
      simp [emptyLedger, dictKeys] at h
    · intro n h
      simp [emptyLedger, dictKeys] at h
    · intro p hp
      simp [emptyLedger] at hp
  · rintro e he n entry rfl
    obtain ⟨m, hm, he'⟩ := List.mem_flatMap.mp he
    cases hmod : m.2 with
    | importError msg =>
      rw [hmod] at he'
      simp [eventsOfModule] at he'
    | classes cs =>
      rw [hmod] at he'
      simp only [eventsOfModule, List.mem_map] at he'
      obtain ⟨c, _, heq⟩ := he'
      have h1 : classify_class c.1 c.2 = Classified.works entry := by
        have h2 := heq
        simp only [Event.classified.injEq] at h2
        exact h2.2
      exact classify_works_coherent c.1 c.2 entry h1
  · intro n hw
    constructor
    · intro hf
      obtain ⟨e1, he1, entry, rfl⟩ := hw
      obtain ⟨e2, he2, hcase⟩ := hf
      have hn1 : n ∈ eventClassNames (eventsOf modules) :=
        List.mem_filterMap.mpr ⟨_, he1, rfl⟩
      rcases hcase with ⟨msg, rfl⟩ | ⟨msg, rfl⟩
      · have hn2 : n ∈ eventModNames (eventsOf modules) :=
          List.mem_filterMap.mpr ⟨_, he2, rfl⟩
        rw [eventClassNames_eventsOf] at hn1
        rw [eventModNames_eventsOf] at hn2
        exact hdisj n hn2 hn1
      · have hne : Event.classified n (Classified.works entry) ≠
            Event.classified n (Classified.fails msg) := by
          intro h
          injection h with _ h2
          exact Classified.noConfusion h2
        have hnot := two_mem_filterMap_not_nodup
          (fun e => match e with
            | Event.classified n _ => some n
            | Event.moduleFailed _ _ => Option.none)
          (eventsOf modules) _ _ n he1 he2 hne rfl rfl
        apply hnot
        have hnd' := hnd
        rw [← eventClassNames_eventsOf] at hnd'
        exact hnd'
    · simp [emptyLedger, dictKeys]
  · intro n _
    simp [emptyLedger, dictKeys]

/-- C3 counterexample: with two modules each defining a class named
`AConverter`, one working and one rejecting every candidate, the name
`AConverter` is recorded in both the working and the failed mapping
after the run, so a recorded name does not always appear in exactly one
of the two. -/
theorem claim_C3_counterexample :
    "AConverter" ∈ dictKeys (discover_and_test_converters cexC3modules).working ∧
    "AConverter" ∈ dictKeys (discover_and_test_converters cexC3modules).failed := by
  constructor <;> decide

/-- C3 witness: on a concrete two-module run with distinct names, the
name `AConverter` is not recorded in both mappings. -/
theorem claim_C3_witness :
    ¬("AConverter" ∈ dictKeys (discover_and_test_converters witC3modules).working ∧
      "AConverter" ∈ dictKeys (discover_and_test_converters witC3modules).failed) :=
  (claim_C3 witC3modules (by decide)
    (by
      intro n hn
      have hn' : n = "x_converter" := by
        simpa [failedModuleNames, witC3modules] using hn
      subst hn'
      decide)).1 "AConverter"

theorem lookupCell_of_not_mem (r : List (String × Cell)) (c : String)
    (h : c ∉ r.map Prod.fst) : lookupCell r c = Option.none := by
  induction r with
  | nil => rfl
  | cons kv rest ih =>
    obtain ⟨k, w⟩ := kv
    simp only [List.map_cons, List.mem_cons] at h
    push_neg at h
    simp only [lookupCell, if_neg (Ne.symm h.1)]
    exact ih h.2

theorem lookupCell_append_left (r1 r2 : List (String × Cell)) (c : String)
    (v : Cell) (h : lookupCell r1 c = some v) :
    lookupCell (r1 ++ r2) c = some v := by
  induction r1 with
  | nil => cases h
  | cons kv rest ih =>
    obtain ⟨k, w⟩ := kv
    by_cases hk : k = c
    · simp_all [lookupCell]
    · simp only [lookupCell, if_neg hk] at h
      simp only [List.cons_append, lookupCell, if_neg hk]
      exact ih h

theorem lookupCell_append_right (r1 r2 : List (String × Cell)) (c : String)
    (h : c ∉ r1.map Prod.fst) :
    lookupCell (r1 ++ r2) c = lookupCell r2 c := by
  induction r1 with
  | nil => rfl
  | cons kv rest ih =>
    obtain ⟨k, w⟩ := kv
    simp only [List.map_cons, List.mem_cons] at h
    push_neg at h
    simp only [List.cons_append, lookupCell, if_neg (Ne.symm h.1)]
    exact ih h.2

theorem setField_of_not_mem (r : List (String × Cell)) (c : String) (v : Cell)
    (h : c ∉ r.map Prod.fst) : setField r c v = r ++ [(c, v)] := by
  induction r with
  | nil => rfl
  | cons kv rest ih =>
    obtain ⟨k, w⟩ := kv
    simp only [List.map_cons, List.mem_cons] at h
    push_neg at h
    simp only [setField, if_neg (Ne.symm h.1), List.cons_append]
    rw [ih h.2]

theorem length_modifyAt {α : Type} (l : List α) (i : Nat) (f : α → α) :
    (modifyAt l i f).length = l.length := by
  induction l generalizing i with
  | nil => rfl
  | cons x xs ih =>
    cases i with
    | zero => rfl
    | succ j => simp [modifyAt, ih]

theorem getElem?_modifyAt_self {α : Type} (l : List α) (i : Nat) (f : α → α) :
    (modifyAt l i f)[i]? = (l[i]?).map f := by
  induction l generalizing i with
  | nil => cases i <;> rfl
  | cons x xs ih =>
    cases i with
    | zero => simp [modifyAt]
    | succ j => simpa [modifyAt] using ih j

theorem getElem?_modifyAt_ne {α : Type} (l : List α) (i j : Nat) (f : α → α)
    (h : j ≠ i) : (modifyAt l i f)[j]? = l[j]? := by
  induction l generalizing i j with
  | nil => cases i <;> rfl
  | cons x xs ih =>
    cases i with
    | zero =>
      cases j with
      | zero => exact absurd rfl h
      | succ j2 => simp [modifyAt]
    | succ i2 =>
      cases j with
      | zero => simp [modifyAt]
      | succ j2 => simpa [modifyAt] using ih i2 j2 (fun hk => h (by rw [hk]))

theorem processRowConverters_spec (t2t : List (String × Converter))
    (idx : Nat) (prompt : String) (T : Table) (r0 : List (String × Cell))
    (hrow : T.rows[idx]? = some r0)
    (hkeys : ∀ nc ∈ t2t, (nc.1 ++ "_output") ∉ r0.map Prod.fst)
    (hnd : (outputCols t2t).Nodup)
    (hnh : ∀ nc ∈ t2t, nc.2.convert prompt ≠ ConvOutcome.hangs) :
    ∃ T2, processRowConverters t2t idx prompt T = some T2 ∧
      T2.cols = T.cols ++
        (outputCols t2t).filter (fun c => !T.cols.contains c) ∧
      T2.rows[idx]? = some (r0 ++ t2t.map (fun nc => (nc.1 ++ "_output",
        (convertCell nc.2 prompt).getD Cell.na))) ∧
      (∀ j, j ≠ idx → T2.rows[j]? = T.rows[j]?) ∧
      T2.rows.length = T.rows.length := by
  induction t2t generalizing T r0 with
  | nil =>
    refine ⟨T, rfl, by simp [outputCols], by simpa using hrow,
      fun j _ => rfl, rfl⟩
  | cons nc rest ih =>
    obtain ⟨v, hv⟩ : ∃ v, convertCell nc.2 prompt = some v := by
      cases hc : nc.2.convert prompt with
      | ok out => exact ⟨Cell.str out, by simp [convertCell, hc]⟩
      | raises m => exact ⟨Cell.str ("ERROR: " ++ m), by simp [convertCell, hc]⟩
      | hangs => exact absurd hc (hnh nc (List.mem_cons_self _ _))
    have hstep : processRowConverters (nc :: rest) idx prompt T =
        processRowConverters rest idx prompt
          (setCell T idx (nc.1 ++ "_output") v) := by
      simp only [processRowConverters, List.foldl_cons, hv]
    have hT1row : (setCell T idx (nc.1 ++ "_output") v).rows[idx]? =
        some (r0 ++ [(nc.1 ++ "_output", v)]) := by
      show (modifyAt T.rows idx _)[idx]? = _
      rw [getElem?_modifyAt_self, hrow]
      rw [show Option.map (fun r => setField r (nc.1 ++ "_output") v)
        (some r0) = some (setField r0 (nc.1 ++ "_output") v) from rfl]
      rw [setField_of_not_mem r0 _ v (hkeys nc (List.mem_cons_self _ _))]
    have hndc : ((nc.1 ++ "_output") ::
        rest.map (fun nc => nc.1 ++ "_output")).Nodup := by
      have h := hnd
      simp only [outputCols, List.map_cons] at h
      exact h
    have hcolne : ∀ c ∈ outputCols rest, c ≠ nc.1 ++ "_output" := by
      intro c hc heq
      subst heq
      exact (List.nodup_cons.mp hndc).1 hc
    have hkeys2 : ∀ nc' ∈ rest, (nc'.1 ++ "_output") ∉
        (r0 ++ [(nc.1 ++ "_output", v)]).map Prod.fst := by
      intro nc' hnc' hmem
      rw [List.map_append] at hmem
      rcases List.mem_append.mp hmem with h | h
      · exact hkeys nc' (List.mem_cons_of_mem nc hnc') h
      · simp only [List.map_cons, List.map_nil, List.mem_singleton] at h
        exact hcolne (nc'.1 ++ "_output")
          (List.mem_map.mpr ⟨nc', hnc', rfl⟩) h
    obtain ⟨T2, hrun, hcols, hrowi, hrowj, hlen⟩ :=
      ih (setCell T idx (nc.1 ++ "_output") v) (r0 ++ [(nc.1 ++ "_output", v)])
        hT1row hkeys2 (List.nodup_cons.mp hndc).2
        (fun nc' hnc' => hnh nc' (List.mem_cons_of_mem nc hnc'))
    have hsc_pos : T.cols.contains (nc.1 ++ "_output") = true →
        (setCell T idx (nc.1 ++ "_output") v).cols = T.cols := by
      intro h
      show (if T.cols.contains (nc.1 ++ "_output") then T.cols
        else T.cols ++ [nc.1 ++ "_output"]) = T.cols
      rw [if_pos h]
    have hsc_neg : T.cols.contains (nc.1 ++ "_output") = false →
        (setCell T idx (nc.1 ++ "_output") v).cols =
          T.cols ++ [nc.1 ++ "_output"] := by
      intro h
      show (if T.cols.contains (nc.1 ++ "_output") then T.cols
        else T.cols ++ [nc.1 ++ "_output"]) = T.cols ++ [nc.1 ++ "_output"]
      rw [h]
      simp
    have hfiltereq : (outputCols rest).filter
        (fun c => !(setCell T idx (nc.1 ++ "_output") v).cols.contains c) =
        (outputCols rest).filter (fun c => !T.cols.contains c) := by
      apply List.filter_congr
      intro c hc
      have hne := hcolne c hc
      cases hcc : T.cols.contains (nc.1 ++ "_output") with
      | true => rw [hsc_pos hcc]
      | false =>
        rw [hsc_neg hcc]
        simp [List.mem_append, hne]
    refine ⟨T2, by rw [hstep]; exact hrun, ?_, ?_, ?_, ?_⟩
    · rw [hcols, hfiltereq]
      cases hcc : T.cols.contains (nc.1 ++ "_output") with
      | true =>
        rw [hsc_pos hcc]
        have hmem : (nc.1 ++ "_output") ∈ T.cols := by
          simpa using hcc
        simp [outputCols, List.filter_cons, hmem]
      | false =>
        rw [hsc_neg hcc]
        have hmem : (nc.1 ++ "_output") ∉ T.cols := by
          simpa using hcc
        simp [outputCols, List.filter_cons, hmem]
    · rw [hrowi]
      simp [hv, List.append_assoc]
    · intro j hj
      rw [hrowj j hj]
      exact getElem?_modifyAt_ne T.rows idx j _ hj
    · rw [hlen]
      exact length_modifyAt T.rows idx _

theorem lt_of_getElem?_some {α : Type} (l : List α) (i : Nat) (a : α)
    (h : l[i]? = some a) : i < l.length := by
  by_contra hc
  rw [List.getElem?_eq_none (by omega)] at h
  cases h

theorem getElem?_some_mem {α : Type} (l : List α) (i : Nat) (a : α)
    (h : l[i]? = some a) : a ∈ l := by
  have hi : i < l.length := lt_of_getElem?_some l i a h
  rw [List.getElem?_eq_getElem hi] at h
  cases h
  exact List.getElem_mem hi

theorem anyKept_succ (df : Table) (pcol : String) (n : Nat) :
    anyKept df pcol (n + 1) =
      (anyKept df pcol n || !skipRow df pcol n) := by
  simp [anyKept, List.range_succ]

theorem process_rows_invariant (df : Table) (pcol : String)
    (t2t : List (String × Converter))
    (hwf : Table.Wf df)
    (hnd : (outputCols t2t).Nodup)
    (hfresh : ∀ c ∈ outputCols t2t, c ∉ df.cols)
    (hnh : ∀ nc ∈ t2t, ∀ i, i < df.rows.length →
      skipRow df pcol i = false →
      nc.2.convert (cellStr (getCell df i pcol)) ≠ ConvOutcome.hangs)
    (n : Nat) (hn : n ≤ df.rows.length) :
    ∃ T, (List.range n).foldl (processRow df pcol t2t) (some df) = some T ∧
      T.cols = (if anyKept df pcol n then df.cols ++ outputCols t2t
        else df.cols) ∧
      T.rows.length = df.rows.length ∧
      (∀ i, T.rows[i]? = (df.rows[i]?).map (fun r =>
        if i < n ∧ skipRow df pcol i = false
        then r ++ enrichRow df pcol t2t i else r)) := by
  induction n with
  | zero =>
    refine ⟨df, rfl, by simp [anyKept], rfl, ?_⟩
    intro i
    simp
  | succ n ih =>
    obtain ⟨T, hfold, hcols, hlen, hrows⟩ := ih (Nat.le_of_succ_le hn)
    rw [List.range_succ, List.foldl_append, hfold, List.foldl_cons,
      List.foldl_nil]
    cases hskip : skipRow df pcol n with
    | true =>
      refine ⟨T, ?_, ?_, hlen, ?_⟩
      · simp [processRow, hskip]
      · rw [hcols, anyKept_succ, hskip]
        simp
      · intro i
        rw [hrows i]
        cases hdf : df.rows[i]? with
        | none => rfl
        | some r =>
          simp only [Option.map_some']
          by_cases hi : i < n
          · have hi2 : i < n + 1 := by omega
            simp [hi, hi2]
          · by_cases hi2 : i < n + 1
            · have heq : i = n := by omega
              subst heq
              simp [hskip]
            · simp [hi, hi2]
    | false =>
      have hnlen : n < df.rows.length := hn
      obtain ⟨r, hr⟩ : ∃ r, df.rows[n]? = some r :=
        ⟨_, List.getElem?_eq_getElem hnlen⟩
      have hrkeys : r.map Prod.fst = df.cols :=
        hwf r (getElem?_some_mem _ _ _ hr)
      have hTrown : T.rows[n]? = some r := by
        rw [hrows n, hr]
        simp
      have hkeys : ∀ nc ∈ t2t, (nc.1 ++ "_output") ∉ r.map Prod.fst := by
        intro nc hnc
        rw [hrkeys]
        exact hfresh _ (List.mem_map.mpr ⟨nc, hnc, rfl⟩)
      obtain ⟨T2, hrun, hcols2, hrowi, hrowj, hlen2⟩ :=
        processRowConverters_spec t2t n (cellStr (getCell df n pcol)) T r
          hTrown hkeys hnd (fun nc hnc => hnh nc hnc n hnlen hskip)
      refine ⟨T2, ?_, ?_, ?_, ?_⟩
      · simp [processRow, hskip, hrun]
      · cases hany : anyKept df pcol n with
        | true =>
          have hfilnil : (outputCols t2t).filter
              (fun c => !(df.cols ++ outputCols t2t).contains c) = [] := by
            rw [List.filter_eq_nil_iff]
            intro c hc
            have hmem : c ∈ df.cols ++ outputCols t2t :=
              List.mem_append.mpr (Or.inr hc)
            have hct : (df.cols ++ outputCols t2t).contains c = true := by
              simpa using hmem
            rw [hct]
            simp
          have hTcols : T.cols = df.cols ++ outputCols t2t := by
            rw [hcols, hany]
            simp
          rw [hcols2, hTcols, hfilnil, List.append_nil, anyKept_succ, hskip,
            hany]
          simp
        | false =>
          have hfilself : (outputCols t2t).filter
              (fun c => !df.cols.contains c) = outputCols t2t := by
            rw [List.filter_eq_self]
            intro c hc
            have hct : df.cols.contains c = false := by
              simpa using hfresh c hc
            rw [hct]
            simp
          have hTcols : T.cols = df.cols := by
            rw [hcols, hany]
            simp
          rw [hcols2, hTcols, hfilself, anyKept_succ, hskip, hany]
          simp
      · rw [hlen2, hlen]
      · intro i
        by_cases hi : i = n
        · subst hi
          rw [hrowi, hr]
          simp [hskip, enrichRow]
        · rw [hrowj i hi, hrows i]
          cases hdf : df.rows[i]? with
          | none => rfl
          | some r2 =>
            simp only [Option.map_some']
            by_cases hi2 : i < n
            · have hi3 : i < n + 1 := by omega
              simp [hi2, hi3]
            · have hi3 : ¬ i < n + 1 := by omega
              simp [hi2, hi3]

theorem process_excel_spec (df : Table) (pcol : String)
    (t2t : List (String × Converter))
    (hwf : Table.Wf df)
    (hpcol : df.cols.contains pcol = true)
    (hnd : (outputCols t2t).Nodup)
    (hfresh : ∀ c ∈ outputCols t2t, c ∉ df.cols)
    (hnh : ∀ nc ∈ t2t, ∀ i, i < df.rows.length →
      skipRow df pcol i = false →
      nc.2.convert (cellStr (getCell df i pcol)) ≠ ConvOutcome.hangs) :
    ∃ T, process_excel df pcol t2t Option.none = some T ∧
      T.cols = (if anyKept df pcol df.rows.length
        then df.cols ++ outputCols t2t else df.cols) ∧
      T.rows.length = df.rows.length ∧
      (∀ i, T.rows[i]? = (df.rows[i]?).map (fun r =>
        if skipRow df pcol i then r else r ++ enrichRow df pcol t2t i)) := by
  obtain ⟨T, hfold, hcols, hlen, hrows⟩ :=
    process_rows_invariant df pcol t2t hwf hnd hfresh hnh
      df.rows.length (Nat.le_refl _)
  refine ⟨T, ?_, hcols, hlen, ?_⟩
  · unfold process_excel
    rw [hpcol]
    simpa using hfold
  · intro i
    rw [hrows i]
    cases hdf : df.rows[i]? with
    | none => rfl
    | some r =>
      have hi : i < df.rows.length := lt_of_getElem?_some _ _ _ hdf
      simp only [Option.map_some']
      cases hskip : skipRow df pcol i with
      | true => simp [hskip]
      | false => simp [hskip, hi]

theorem lookupCell_isSome_of_mem (r : List (String × Cell)) (c : String)
    (h : c ∈ r.map Prod.fst) : ∃ v, lookupCell r c = some v := by
  induction r with
  | nil => cases h
  | cons kv rest ih =>
    obtain ⟨k, w⟩ := kv
    by_cases hk : k = c
    · exact ⟨w, by simp [lookupCell, hk]⟩
    · simp only [List.map_cons, List.mem_cons] at h
      rcases h with h | h
      · exact absurd h.symm hk
      · obtain ⟨v, hv⟩ := ih h
        exact ⟨v, by simp [lookupCell, hk, hv]⟩

theorem lookupCell_of_mem_nodup (l : List (String × Cell)) (k : String)
    (v : Cell) (hmem : (k, v) ∈ l) (hnd : (l.map Prod.fst).Nodup) :
    lookupCell l k = some v := by
  induction l with
  | nil => cases hmem
  | cons kv rest ih =>
    obtain ⟨k0, v0⟩ := kv
    rcases List.mem_cons.mp hmem with heq | hmem'
    · cases heq
      simp [lookupCell]
    · by_cases hk : k0 = k
      · subst hk
        have : k0 ∈ rest.map Prod.fst :=
          List.mem_map.mpr ⟨(k0, v), hmem', rfl⟩
        exact absurd this (List.nodup_cons.mp (by simpa using hnd)).1
      · simp only [lookupCell, if_neg hk]
        exact ih hmem' (List.nodup_cons.mp (by simpa using hnd)).2

theorem lookupCell_congr_mid (A B : List (String × Cell)) (key : String)
    (v1 v2 : Cell) (c : String) (hne : c ≠ key) :
    lookupCell (A ++ (key, v1) :: B) c =
      lookupCell (A ++ (key, v2) :: B) c := by
  induction A with
  | nil => simp [lookupCell, Ne.symm hne]
  | cons kv rest ih =>
    obtain ⟨k, w⟩ := kv
    by_cases hk : k = c
    · simp [lookupCell, hk]
    · simp only [List.cons_append, lookupCell, if_neg hk]
      exact ih

theorem enrichRow_keys (df : Table) (pcol : String)
    (t2t : List (String × Converter)) (i : Nat) :
    (enrichRow df pcol t2t i).map Prod.fst = outputCols t2t := by
  simp [enrichRow, outputCols, List.map_map, Function.comp]

theorem strAppend_right_cancel (a b s : String) (h : a ++ s = b ++ s) :
    a = b := by
  have hd := congrArg String.data h
  rw [String.data_append, String.data_append] at hd
  exact String.ext (List.append_cancel_right hd)

theorem outputCols_nodup_of_names (t2t : List (String × Converter))
    (h : (t2t.map Prod.fst).Nodup) : (outputCols t2t).Nodup := by
  have he : outputCols t2t =
      (t2t.map Prod.fst).map (fun s => s ++ "_output") := by
    simp [outputCols, List.map_map, Function.comp]
  rw [he]
  exact h.map (fun a b hab => strAppend_right_cancel a b "_output" hab)

theorem anyKept_true_of_kept (df : Table) (pcol : String) (n i : Nat)
    (hi : i < n) (hk : skipRow df pcol i = false) :
    anyKept df pcol n = true := by
  unfold anyKept
  rw [List.any_eq_true]
  exact ⟨i, List.mem_range.mpr hi, by simp [hk]⟩

theorem getCell_row_append_orig (T : Table) (i : Nat)
    (row extra : List (String × Cell)) (c : String)
    (hrow : T.rows[i]? = some (row ++ extra))
    (hc : c ∈ row.map Prod.fst) :
    getCell T i c = (lookupCell row c).getD Cell.na := by
  obtain ⟨v, hv⟩ := lookupCell_isSome_of_mem row c hc
  unfold getCell
  rw [hrow]
  simp only []
  rw [lookupCell_append_left row extra c v hv, hv]

/-- C5 (amended): for every batch run over a well-formed frame with at
least one row, all rows non-empty, pairwise-distinct plugin names whose
output column names do not collide with the original columns, and every
conversion succeeding, the enriched output holds exactly the N input
rows in their original order (each original row is a prefix of the
corresponding output row), every original column reads unmodified, and
exactly K additional columns named `<pluginName>_output` are appended,
one per plugin, holding the conversion outputs. -/
theorem claim_C5 (df : Table) (pcol : String)
    (t2t : List (String × Converter))
    (hwf : Table.Wf df)
    (hpcol : df.cols.contains pcol = true)
    (hnames : (t2t.map Prod.fst).Nodup)
    (hfresh : ∀ nc ∈ t2t, (nc.1 ++ "_output") ∉ df.cols)
    (hN : 0 < df.rows.length)
    (hnoskip : ∀ i, i < df.rows.length → skipRow df pcol i = false)
    (hok : ∀ nc ∈ t2t, ∀ i, i < df.rows.length →
      (nc.2.convert (cellStr (getCell df i pcol))).isOk = true) :
    ∃ T, process_excel df pcol t2t Option.none = some T ∧
      T.cols = df.cols ++ outputCols t2t ∧
      (outputCols t2t).length = t2t.length ∧
      T.rows.length = df.rows.length ∧
      (∀ i, T.rows[i]? = (df.rows[i]?).map
        (fun r => r ++ enrichRow df pcol t2t i)) ∧
      (∀ i c, c ∈ df.cols → getCell T i c = getCell df i c) ∧
      (∀ i, i < df.rows.length → ∀ nc ∈ t2t, ∀ out,
        nc.2.convert (cellStr (getCell df i pcol)) = ConvOutcome.ok out →
        getCell T i (nc.1 ++ "_output") = Cell.str out) := by
  have hfresh2 : ∀ c ∈ outputCols t2t, c ∉ df.cols := by
    intro c hc
    obtain ⟨nc, hnc, rfl⟩ := List.mem_map.mp hc
    exact hfresh nc hnc
  have hnd := outputCols_nodup_of_names t2t hnames
  have hnh : ∀ nc ∈ t2t, ∀ i, i < df.rows.length →
      skipRow df pcol i = false →
      nc.2.convert (cellStr (getCell df i pcol)) ≠ ConvOutcome.hangs := by
    intro nc hnc i hi _
    have h := hok nc hnc i hi
    intro hcontra
    rw [hcontra] at h
    cases h
  obtain ⟨T, hrun, hcols, hlen, hrows⟩ :=
    process_excel_spec df pcol t2t hwf hpcol hnd hfresh2 hnh
  have hany : anyKept df pcol df.rows.length = true :=
    anyKept_true_of_kept df pcol _ 0 hN (hnoskip 0 hN)
  have hrows2 : ∀ i, T.rows[i]? = (df.rows[i]?).map
      (fun r => r ++ enrichRow df pcol t2t i) := by
    intro i
    rw [hrows i]
    cases hdf : df.rows[i]? with
    | none => rfl
    | some r =>
      have hi := lt_of_getElem?_some _ _ _ hdf
      simp [hnoskip i hi]
  refine ⟨T, hrun, by rw [hcols, if_pos hany], by simp [outputCols], hlen,
    hrows2, ?_, ?_⟩
  · intro i c hc
    cases hdf : df.rows[i]? with
    | none =>
      have h1 : T.rows[i]? = Option.none := by
        rw [hrows2 i, hdf]
        rfl
      unfold getCell
      rw [h1, hdf]
    | some r =>
      have h1 : T.rows[i]? = some (r ++ enrichRow df pcol t2t i) := by
        rw [hrows2 i, hdf]
        rfl
      rw [getCell_row_append_orig T i r _ c h1
        (by rw [hwf r (getElem?_some_mem _ _ _ hdf)]; exact hc)]
      unfold getCell
      rw [hdf]
  · intro i hi nc hnc out hout
    obtain ⟨r, hdf⟩ : ∃ r, df.rows[i]? = some r :=
      ⟨_, List.getElem?_eq_getElem hi⟩
    have h1 : T.rows[i]? = some (r ++ enrichRow df pcol t2t i) := by
      rw [hrows2 i, hdf]
      rfl
    have hkey : (nc.1 ++ "_output") ∉ r.map Prod.fst := by
      rw [hwf r (getElem?_some_mem _ _ _ hdf)]
      exact hfresh nc hnc
    unfold getCell
    rw [h1]
    simp only []
    rw [lookupCell_append_right r _ _ hkey]
    have hmem : (nc.1 ++ "_output",
        (convertCell nc.2 (cellStr (getCell df i pcol))).getD Cell.na) ∈
        enrichRow df pcol t2t i := List.mem_map.mpr ⟨nc, hnc, rfl⟩
    rw [lookupCell_of_mem_nodup _ _ _ hmem
      (by rw [enrichRow_keys]; exact hnd)]
    simp [convertCell, hout]

/-- C5 counterexample: on a one-row input frame that already carries a
column named `C_output`, running the batch with the single plugin `C`
overwrites the original value "orig" of that column with the conversion
output and adds no new column, so the output does not preserve every
original value unmodified, nor does it have K = 1 additional columns. -/
theorem claim_C5_counterexample :
    process_excel cexC5df "prompt" [("C", upperConv)] Option.none =
      some ⟨["prompt", "C_output"],
        [[("prompt", Cell.str "hi"), ("C_output", Cell.str "HI")]]⟩ ∧
    getCell cexC5df 0 "C_output" = Cell.str "orig" := by
  constructor
  · rfl
  · rfl

/-- C5 witness: the amended claim applied to a concrete two-row frame
and one uppercasing plugin. -/
theorem claim_C5_witness :
    ∃ T, process_excel df6 "prompt" [("UpperCaseConverter", upperConv)]
        Option.none = some T ∧
      T.cols = df6.cols ++ outputCols [("UpperCaseConverter", upperConv)] := by
  obtain ⟨T, h1, h2, _⟩ := claim_C5 df6 "prompt"
    [("UpperCaseConverter", upperConv)]
    (by intro r hr; fin_cases hr <;> rfl) (by decide) (by decide)
    (by decide) (by decide) (by decide) (by decide)
  exact ⟨T, h1, h2⟩

/-- C7: the batch processor skips every row whose text column is NaN or
blank after trimming: the row record is left unchanged in the output (no
plugin output is written for it, every output column reads NaN there);
and concretely, a batch run over rows "hi", "" and "go" with a
no-argument uppercasing text-to-text converter writes "HI" and "GO" into
the output column of the two non-empty rows and leaves the empty row
without output. -/
theorem claim_C7 (df : Table) (pcol : String)
    (t2t : List (String × Converter))
    (hwf : Table.Wf df)
    (hpcol : df.cols.contains pcol = true)
    (hnd : (outputCols t2t).Nodup)
    (hfresh : ∀ c ∈ outputCols t2t, c ∉ df.cols)
    (hnh : ∀ nc ∈ t2t, ∀ i, i < df.rows.length →
      skipRow df pcol i = false →
      nc.2.convert (cellStr (getCell df i pcol)) ≠ ConvOutcome.hangs) :
    (∃ T, process_excel df pcol t2t Option.none = some T ∧
      ∀ i, skipRow df pcol i = true →
        T.rows[i]? = df.rows[i]? ∧
        ∀ nc ∈ t2t, getCell T i (nc.1 ++ "_output") = Cell.na) ∧
    process_excel df7 "prompt" [("UpperCaseConverter", upperConv)]
        Option.none =
      some ⟨["prompt", "UpperCaseConverter_output"],
        [ [("prompt", Cell.str "hi"),
            ("UpperCaseConverter_output", Cell.str "HI")],
          [("prompt", Cell.str "")],
          [("prompt", Cell.str "go"),
            ("UpperCaseConverter_output", Cell.str "GO")] ]⟩ := by
  constructor
  · obtain ⟨T, hrun, hcols, hlen, hrows⟩ :=
      process_excel_spec df pcol t2t hwf hpcol hnd hfresh hnh
    refine ⟨T, hrun, ?_⟩
    intro i hskip
    have h1 : T.rows[i]? = df.rows[i]? := by
      rw [hrows i]
      cases hdf : df.rows[i]? with
      | none => rfl
      | some r => simp [hskip]
    refine ⟨h1, ?_⟩
    intro nc hnc
    unfold getCell
    rw [h1]
    cases hdf : df.rows[i]? with
    | none => rfl
    | some r =>
      simp only []
      rw [lookupCell_of_not_mem r _ ?_]
      · rfl
      · rw [hwf r (getElem?_some_mem _ _ _ hdf)]
        exact hfresh _ (List.mem_map.mpr ⟨nc, hnc, rfl⟩)
  · rfl

/-- C7 witness: the concrete three-row scenario of the claim, obtained
by applying the theorem to the frame with prompts "hi", "" and "go". -/
theorem claim_C7_witness :
    process_excel df7 "prompt" [("UpperCaseConverter", upperConv)]
        Option.none =
      some ⟨["prompt", "UpperCaseConverter_output"],
        [ [("prompt", Cell.str "hi"),
            ("UpperCaseConverter_output", Cell.str "HI")],
          [("prompt", Cell.str "")],
          [("prompt", Cell.str "go"),
            ("UpperCaseConverter_output", Cell.str "GO")] ]⟩ :=
  (claim_C7 df7 "prompt" [("UpperCaseConverter", upperConv)]
    (by intro r hr; fin_cases hr <;> rfl) (by decide) (by decide)
    (by decide) (by decide)).2

/-- C10: a row cap of 0 disables the cap entirely, making the run
identical to a run with no cap at all, while a positive cap m truncates
the input to its first m rows before processing. -/
theorem claim_C10 (df : Table) (pcol : String)
    (t2t : List (String × Converter)) :
    process_excel df pcol t2t (some 0) =
      process_excel df pcol t2t Option.none ∧
    (∀ m : Int, 0 < m →
      process_excel df pcol t2t (some m) =
        process_excel { df with rows := df.rows.take m.toNat } pcol t2t
          Option.none) := by
  constructor
  · simp [process_excel]
  · intro m hm
    have h0 : ¬ m = 0 := by omega
    have hle : 0 ≤ m := le_of_lt hm
    simp [process_excel, h0, pandasHead, hle]

/-- C10 witness: on the concrete three-row frame, a cap of 0 processes
all rows exactly like no cap, and a cap of 2 processes the two-row
truncation. -/
theorem claim_C10_witness :
    process_excel df7 "prompt" [("UpperCaseConverter", upperConv)]
        (some 0) =
      process_excel df7 "prompt" [("UpperCaseConverter", upperConv)]
        Option.none ∧
    process_excel df7 "prompt" [("UpperCaseConverter", upperConv)]
        (some 2) =
      process_excel { df7 with rows := df7.rows.take (2 : Int).toNat }
        "prompt" [("UpperCaseConverter", upperConv)] Option.none := by
  have h := claim_C10 df7 "prompt" [("UpperCaseConverter", upperConv)]
  exact ⟨h.1, h.2 2 (by decide)⟩

/-- C6: in a batch run, a plugin whose conversion raises on one row
writes the error marker "ERROR: " followed by the message into its own
output column for that row only: comparing the run against the same run
with that one conversion replaced by any non-raising behaviour, every
other row is identical, every other cell of the affected row is
identical, the column set is identical, and processing of the remaining
plugins and rows continues unchanged. -/
theorem claim_C6 (df : Table) (pcol : String)
    (pre post : List (String × Converter)) (n : String) (cv cv2 : Converter)
    (r : Nat) (msg : String)
    (hwf : Table.Wf df)
    (hpcol : df.cols.contains pcol = true)
    (hnd : (outputCols (pre ++ (n, cv) :: post)).Nodup)
    (hfresh : ∀ c ∈ outputCols (pre ++ (n, cv) :: post), c ∉ df.cols)
    (hnh : ∀ nc ∈ pre ++ (n, cv) :: post, ∀ i, i < df.rows.length →
      skipRow df pcol i = false →
      nc.2.convert (cellStr (getCell df i pcol)) ≠ ConvOutcome.hangs)
    (hnh2 : ∀ nc ∈ pre ++ (n, cv2) :: post, ∀ i, i < df.rows.length →
      skipRow df pcol i = false →
      nc.2.convert (cellStr (getCell df i pcol)) ≠ ConvOutcome.hangs)
    (hr : r < df.rows.length)
    (hkept : skipRow df pcol r = false)
    (hraise : cv.convert (cellStr (getCell df r pcol)) =
      ConvOutcome.raises msg)
    (hagree : ∀ i, i ≠ r →
      cv.convert (cellStr (getCell df i pcol)) =
        cv2.convert (cellStr (getCell df i pcol))) :
    ∃ T T2,
      process_excel df pcol (pre ++ (n, cv) :: post) Option.none = some T ∧
      process_excel df pcol (pre ++ (n, cv2) :: post) Option.none = some T2 ∧
      T.cols = T2.cols ∧
      T.rows.length = T2.rows.length ∧
      getCell T r (n ++ "_output") = Cell.str ("ERROR: " ++ msg) ∧
      (∀ i, i ≠ r → T.rows[i]? = T2.rows[i]?) ∧
      (∀ c, c ≠ n ++ "_output" → getCell T r c = getCell T2 r c) := by
  have hocols : outputCols (pre ++ (n, cv2) :: post) =
      outputCols (pre ++ (n, cv) :: post) := by
    simp [outputCols]
  obtain ⟨T, hrun, hcols, hlen, hrows⟩ :=
    process_excel_spec df pcol (pre ++ (n, cv) :: post) hwf hpcol hnd
      hfresh hnh
  obtain ⟨T2, hrun2, hcols2, hlen2, hrows2⟩ :=
    process_excel_spec df pcol (pre ++ (n, cv2) :: post) hwf hpcol
      (by rw [hocols]; exact hnd) (by rw [hocols]; exact hfresh) hnh2
  have henrich : ∀ i, i ≠ r →
      enrichRow df pcol (pre ++ (n, cv) :: post) i =
        enrichRow df pcol (pre ++ (n, cv2) :: post) i := by
    intro i hi
    have hcc : convertCell cv (cellStr (getCell df i pcol)) =
        convertCell cv2 (cellStr (getCell df i pcol)) := by
      unfold convertCell
      rw [hagree i hi]
    simp only [enrichRow, List.map_append, List.map_cons, hcc]
  obtain ⟨row, hrowdf⟩ : ∃ row, df.rows[r]? = some row :=
    ⟨_, List.getElem?_eq_getElem hr⟩
  have hTrow : T.rows[r]? =
      some (row ++ enrichRow df pcol (pre ++ (n, cv) :: post) r) := by
    rw [hrows r, hrowdf]
    simp [hkept]
  have hTrow2 : T2.rows[r]? =
      some (row ++ enrichRow df pcol (pre ++ (n, cv2) :: post) r) := by
    rw [hrows2 r, hrowdf]
    simp [hkept]
  have hdecompA : enrichRow df pcol (pre ++ (n, cv) :: post) r =
      enrichRow df pcol pre r ++ (n ++ "_output",
        (convertCell cv (cellStr (getCell df r pcol))).getD Cell.na) ::
        enrichRow df pcol post r := by
    simp [enrichRow]
  have hdecompB : enrichRow df pcol (pre ++ (n, cv2) :: post) r =
      enrichRow df pcol pre r ++ (n ++ "_output",
        (convertCell cv2 (cellStr (getCell df r pcol))).getD Cell.na) ::
        enrichRow df pcol post r := by
    simp [enrichRow]
  have hrowkeys : row.map Prod.fst = df.cols :=
    hwf row (getElem?_some_mem _ _ _ hrowdf)
  have hkeyfresh : (n ++ "_output") ∉ row.map Prod.fst := by
    rw [hrowkeys]
    apply hfresh
    simp [outputCols]
  have hkeypre : (n ++ "_output") ∉ (enrichRow df pcol pre r).map Prod.fst := by
    rw [enrichRow_keys]
    intro hmem
    have hndx := hnd
    simp only [outputCols, List.map_append, List.map_cons] at hndx
    rcases List.nodup_append.mp hndx with ⟨_, _, hdisj⟩
    exact hdisj hmem (List.mem_cons_self _ _)
  refine ⟨T, T2, hrun, hrun2, ?_, ?_, ?_, ?_, ?_⟩
  · rw [hcols, hcols2, hocols]
  · rw [hlen, hlen2]
  · unfold getCell
    rw [hTrow]
    simp only []
    rw [hdecompA,
      lookupCell_append_right row _ _ hkeyfresh,
      lookupCell_append_right _ _ _ hkeypre]
    simp only [lookupCell, if_pos rfl]
    rw [show convertCell cv (cellStr (getCell df r pcol)) =
      some (Cell.str ("ERROR: " ++ msg)) from by
        unfold convertCell
        rw [hraise]]
    rfl
  · intro i hi
    rw [hrows i, hrows2 i]
    cases hdf : df.rows[i]? with
    | none => rfl
    | some rowi =>
      cases hsk : skipRow df pcol i with
      | true => rfl
      | false => simp [henrich i hi]
  · intro c hc
    unfold getCell
    rw [hTrow, hTrow2]
    simp only []
    rw [hdecompA, hdecompB,
      show row ++ (enrichRow df pcol pre r ++ (n ++ "_output",
        (convertCell cv (cellStr (getCell df r pcol))).getD Cell.na) ::
        enrichRow df pcol post r) = (row ++ enrichRow df pcol pre r) ++
        (n ++ "_output",
        (convertCell cv (cellStr (getCell df r pcol))).getD Cell.na) ::
        enrichRow df pcol post r from by rw [List.append_assoc],
      show row ++ (enrichRow df pcol pre r ++ (n ++ "_output",
        (convertCell cv2 (cellStr (getCell df r pcol))).getD Cell.na) ::
        enrichRow df pcol post r) = (row ++ enrichRow df pcol pre r) ++
        (n ++ "_output",
        (convertCell cv2 (cellStr (getCell df r pcol))).getD Cell.na) ::
        enrichRow df pcol post r from by rw [List.append_assoc],
      lookupCell_congr_mid (row ++ enrichRow df pcol pre r)
        (enrichRow df pcol post r) (n ++ "_output")
        ((convertCell cv (cellStr (getCell df r pcol))).getD Cell.na)
        ((convertCell cv2 (cellStr (getCell df r pcol))).getD Cell.na)
        c hc]

/-- C6 witness: on the concrete two-row frame whose second prompt makes
`errConv` raise, the run with `errConv` and the run with the raising
behaviour replaced by `echoConv` agree everywhere except the error cell,
which holds the error marker. -/
theorem claim_C6_witness :
    ∃ T T2,
      process_excel df6 "prompt"
        ([] ++ ("ErrConverter", errConv) :: [("EchoConverter", echoConv)])
        Option.none = some T ∧
      process_excel df6 "prompt"
        ([] ++ ("ErrConverter", echoConv) :: [("EchoConverter", echoConv)])
        Option.none = some T2 ∧
      T.cols = T2.cols ∧
      T.rows.length = T2.rows.length ∧
      getCell T 1 ("ErrConverter" ++ "_output") =
        Cell.str ("ERROR: " ++ "boom") ∧
      (∀ i, i ≠ 1 → T.rows[i]? = T2.rows[i]?) ∧
      (∀ c, c ≠ "ErrConverter" ++ "_output" →
        getCell T 1 c = getCell T2 1 c) :=
  claim_C6 df6 "prompt" [] [("EchoConverter", echoConv)] "ErrConverter"
    errConv echoConv 1 "boom"
    (by intro r hr; fin_cases hr <;> rfl) (by decide) (by decide)
    (by decide) (by decide) (by decide) (by decide) (by decide) (by decide)
    (by
      intro i hi
      cases i with
      | zero => rfl
      | succ j =>
        cases j with
        | zero => exact absurd rfl hi
        | succ k => rfl)

end Script
